import Mathlib

/-!
Verification of the stac-repository transactional catalog engine.

This development shallowly embeds the Python sources of the repository:

* `stac_repository/file/file_stac_transaction.py` and
  `stac_repository/file/file_stac_repository.py` (the filesystem backend),
* `stac_repository/base_stac_repository.py` (commit-ref resolution, ingest),
* `stac_repository/base_stac_transaction.py` (catalog / uncatalog),
* `stac_repository/stac.py` (load, search, save, delete, extents).

Filesystem state is modeled as an association list from absolute paths to
file contents; Python exceptions are modeled by the `PyErr` type, and
stateful Python code by explicit state passing in which raising an
exception preserves the mutations already performed (as in Python).
-/

/-- Python exception kinds raised by the embedded code.  Each constructor
corresponds to one exception class of the source. -/
inductive PyErr where
  /-- `FileNotFoundError` -/
  | fileNotFound
  /-- `ObjectNotFoundError` (subclass of `FileNotFoundError`) -/
  | objectNotFound
  /-- `ParentNotFoundError` (subclass of `ObjectNotFoundError`) -/
  | parentNotFound
  /-- `ParentCatalogError` -/
  | parentCatalogError
  /-- `RootUncatalogError` -/
  | rootUncatalogError
  /-- `StacObjectError` -/
  | stacObjectError
  /-- `orjson.JSONDecodeError` -/
  | jsonDecodeError
  /-- `HrefError` -/
  | hrefError
  /-- `AttributeError`, e.g. attribute access on `None` -/
  | attributeError
  /-- `TypeError`, e.g. `min`/`max` applied to `None` -/
  | typeError
  /-- `IndexError`, e.g. indexing an empty list -/
  | indexError
  /-- `RecursionError` (unbounded recursion; models fuel exhaustion) -/
  | recursionError
  /-- `FileExistsError` (lock contention) -/
  | fileExists
  /-- `RepositoryNotFoundError` -/
  | repositoryNotFound
deriving DecidableEq, Repr

/-- `str.startswith` on strings, computed on the character lists so that
concrete instances evaluate inside the kernel. -/
def strStartsWith (s pre : String) : Bool :=
  pre.data.isPrefixOf s.data

/-- `str.endswith` on strings, computed on the character lists. -/
def strEndsWith (s sfx : String) : Bool :=
  sfx.data.isSuffixOf s.data

/-- `s[:-n]` (`str` slicing / `String.dropRight`), computed on the
character lists. -/
def strDropRight (s : String) (n : Nat) : String :=
  ⟨s.data.take (s.data.length - n)⟩

namespace FileBackend

/-- The filesystem under the repository base, as a finite map from absolute
file paths to file contents.  Directories are not part of the state
(`_remove_empty_directories` is therefore a no-op of the model). -/
abbrev Store := List (String × String)

/-- Look a path up in the store. -/
def lookup (s : Store) (k : String) : Option String :=
  match s.find? (fun kv => kv.1 = k) with
  | some kv => some kv.2
  | none => none

/-- Remove a path from the store. -/
def erase (s : Store) (k : String) : Store :=
  s.filter (fun kv => kv.1 ≠ k)

/-- Create or overwrite a file. -/
def insert (s : Store) (k v : String) : Store :=
  erase s k ++ [(k, v)]

/-- `os.rename(src, dst)`: on POSIX the destination is silently replaced.
`unset` wraps each rename in `try/except FileNotFoundError: pass`, which this
models by leaving the store unchanged when the source is absent. -/
def renameIfExists (s : Store) (src dst : String) : Store :=
  match lookup s src with
  | none => s
  | some v => insert (erase s src) dst v

/-- The `.lock` file path of `FileStacTransaction._lock` / `_unlock`. -/
def lockKey (base : String) : String := base ++ "/.lock"

/-- `FileStacTransaction._lock`: fail if the lock file exists, else create it. -/
def txLock (base : String) (s : Store) : Except PyErr Store :=
  match lookup s (lockKey base) with
  | some _ => .error .fileExists
  | none => .ok (insert s (lockKey base) "")

/-- `FileStacTransaction._unlock`: remove the lock file, failing when absent. -/
def txUnlock (base : String) (s : Store) : Except PyErr Store :=
  match lookup s (lockKey base) with
  | none => .error .fileNotFound
  | some _ => .ok (erase s (lockKey base))

/-- `FileStacTransaction.set`: stage a write by writing `<href>.tmp`. -/
def txSet (base : String) (s : Store) (href content : String) : Except PyErr Store :=
  if ¬ strStartsWith href base then .error .hrefError
  else .ok (insert s (href ++ ".tmp") content)

/-- `FileStacTransaction.set_asset`: streams bytes into `<href>.tmp`; on the
store model it stages content exactly like `set`. -/
def txSetAsset (base : String) (s : Store) (href content : String) : Except PyErr Store :=
  if ¬ strStartsWith href base then .error .hrefError
  else .ok (insert s (href ++ ".tmp") content)

/-- `FileStacTransaction.unset`: journal a deletion by renaming
`<href>` to `<href>.bck`, then renaming `<href>.tmp` to `<href>.bck`
(each rename skipped when its source is absent; the second rename
overwrites the backup produced by the first). -/
def txUnset (base : String) (s : Store) (href : String) : Except PyErr Store :=
  if ¬ strStartsWith href base then .error .hrefError
  else
    .ok (renameIfExists (renameIfExists s href (href ++ ".bck"))
          (href ++ ".tmp") (href ++ ".bck"))

/-- `FileStacTransaction._rename_suffixed_files(suffix)`: rename every file
`<f>.<suffix>` to `<f>` (each rename replacing any file already at the
stripped name, as `os.rename` does). -/
def renameSuffixed (sfx : String) (s : Store) : Store :=
  let withSfx := s.filter (fun kv => strEndsWith kv.1 sfx)
  let rest := s.filter (fun kv => ¬ strEndsWith kv.1 sfx)
  withSfx.foldl (fun acc kv => insert acc (strDropRight kv.1 sfx.length) kv.2) rest

/-- `FileStacTransaction._remove_suffixed_files(suffix)`: delete every
file ending in the suffix. -/
def removeSuffixed (sfx : String) (s : Store) : Store :=
  s.filter (fun kv => ¬ strEndsWith kv.1 sfx)

/-- `FileStacTransaction.abort`: rename `*.bck` back, delete `*.tmp`,
prune empty directories (a no-op on this directory-free model), unlock. -/
def txAbort (base : String) (s : Store) : Except PyErr Store :=
  txUnlock base (removeSuffixed ".tmp" (renameSuffixed ".bck" s))

/-- `FileStacTransaction.commit`: rename `*.tmp` into place, delete `*.bck`,
prune empty directories, unlock. -/
def txCommit (base : String) (s : Store) : Except PyErr Store :=
  txUnlock base (removeSuffixed ".bck" (renameSuffixed ".tmp" s))

/-- One staged operation of a transaction. -/
inductive TxOp where
  | set (href content : String)
  | setAsset (href content : String)
  | unset (href : String)
deriving DecidableEq, Repr

/-- Run one staged operation. -/
def applyOp (base : String) (s : Store) : TxOp → Except PyErr Store
  | .set href content => txSet base s href content
  | .setAsset href content => txSetAsset base s href content
  | .unset href => txUnset base s href

/-- Run a sequence of staged operations. -/
def applyOps (base : String) (s : Store) : List TxOp → Except PyErr Store
  | [] => .ok s
  | op :: ops =>
    match applyOp base s op with
    | .error e => .error e
    | .ok s2 => applyOps base s2 ops

/-- A whole transaction attempt: acquire the lock, run the staged
operations, then abort. -/
def runThenAbort (base : String) (s : Store) (ops : List TxOp) : Except PyErr Store :=
  match txLock base s with
  | .error e => .error e
  | .ok s1 =>
    match applyOps base s1 ops with
    | .error e => .error e
    | .ok s2 => txAbort base s2

/-- `FileStacRepository.__init__` (open): resolve the root catalog path and
raise `RepositoryNotFoundError` when it does not exist.  No other file is
read, written, renamed or deleted. -/
def openRepo (base : String) (s : Store) : Except PyErr Store :=
  if (lookup s (base ++ "/catalog.json")).isNone then .error .repositoryNotFound
  else .ok s

/-- Abort-style crash cleanup as the specification describes it for `open`
(rename `.bck` back to the original name, delete `.tmp`, remove `.lock`);
`FileStacRepository.__init__` never performs it. -/
def specCrashRecovery (base : String) (s : Store) : Store :=
  erase (removeSuffixed ".tmp" (renameSuffixed ".bck" s)) (lockKey base)

end FileBackend

namespace History

/-- Commit metadata exposed by `BaseStacCommit`: an opaque id and a
timestamp (`datetime` modeled as an integer). -/
structure Commit where
  id : String
  datetime : Int
deriving DecidableEq, Repr

/-- The dynamic type of the `ref` argument of `BaseStacRepository.get_commit`:
a string, an integer, a datetime, or anything else. -/
inductive Ref where
  | str (r : String)
  | int (i : Int)
  | date (t : Int)
  | other
deriving DecidableEq, Repr

/-- The errors of history navigation. -/
inductive CommitErr where
  | commitNotFound
  | refTypeError
deriving DecidableEq, Repr

/-- The candidate list built by the string branch of `get_commit`:
all commits whose id starts with the ref. -/
def strCandidates (commits : List Commit) (r : String) : List Commit :=
  commits.filter (fun c => strStartsWith c.id r)

/-- The string branch of `get_commit`: no candidate or more than one
candidate raises `CommitNotFoundError`, otherwise `candidates.pop()`
returns the single candidate. -/
def getCommitStr (commits : List Commit) (r : String) : Except CommitErr Commit :=
  let candidates := strCandidates commits r
  if candidates.isEmpty then .error .commitNotFound
  else if 1 < candidates.length then .error .commitNotFound
  else
    match candidates.getLast? with
    | some c => .ok c
    | none => .error .commitNotFound

/-- The integer branch of `get_commit`:
`for (i, commit) in enumerate(self.commits): if -i == ref: return commit`,
falling through to `CommitNotFoundError`. -/
def getCommitIntLoop (ref : Int) : Nat → List Commit → Except CommitErr Commit
  | _, [] => .error .commitNotFound
  | i, c :: cs => if -(i : Int) = ref then .ok c else getCommitIntLoop ref (i + 1) cs

/-- The datetime branch of `get_commit`: return the first commit of the
history (most recent first) whose datetime is at or before the ref. -/
def getCommitDateLoop (t : Int) : List Commit → Except CommitErr Commit
  | [] => .error .commitNotFound
  | c :: cs => if c.datetime ≤ t then .ok c else getCommitDateLoop t cs

/-- `BaseStacRepository.get_commit(ref)` over the commit history
`commits` (most recent first, as produced by the `commits` property). -/
def getCommit (commits : List Commit) : Ref → Except CommitErr Commit
  | .str r => getCommitStr commits r
  | .int i => getCommitIntLoop i 0 commits
  | .date t => getCommitDateLoop t commits
  | .other => .error .refTypeError

end History

namespace Ingest

open FileBackend

/-- One product of a batch ingest, abstracting `_ingest_product`: either
processing succeeds and `transaction.catalog` stages one write
(`href`, `content`), or some step raises an error with message `msg`. -/
inductive ProductRun where
  | good (source href content : String)
  | bad (source msg : String)
deriving DecidableEq, Repr

/-- The product loop of `BaseStacRepository.ingest`: each product is
processed inside `try/except Exception`, a failure being recorded into the
`ErrorGroup` keyed by the product source while the loop continues. -/
def ingestLoop (base : String) :
    Store → List ProductRun → List (String × String) → Store × List (String × String)
  | s, [], errors => (s, errors)
  | s, .good _ href content :: ps, errors =>
    match txSet base s href content with
    | .ok s2 => ingestLoop base s2 ps errors
    | .error _ => ingestLoop base s ps (errors ++ [(href, "HrefError")])
  | s, .bad source msg :: ps, errors =>
    ingestLoop base s ps (errors ++ [(source, msg)])

/-- The part of `BaseStacRepository.ingest` that runs inside the
`with ... context()` block once the loop state is known: `if errors:
raise errors` still inside the block — so `BaseStacTransaction.context`
runs `abort` and re-raises the group — while a clean loop exits the
block normally and `context` commits (aborting and re-raising when the
commit itself fails). -/
def ingestAfterLock (base : String) (res : Store × List (String × String)) :
    Store × Except (List (String × String)) Unit :=
  if res.2.isEmpty then
    match txCommit base res.1 with
    | .ok s3 => (s3, .ok ())
    | .error _ =>
      match txAbort base res.1 with
      | .ok s4 => (s4, .error [("transaction", "CommitError")])
      | .error _ => (res.1, .error [("transaction", "CommitError")])
  else
    match txAbort base res.1 with
    | .ok s3 => (s3, .error res.2)
    | .error _ => (res.1, .error res.2)

/-- `BaseStacRepository.ingest` from the transaction on: acquire the lock
(`Transaction.__init__`), run the product loop, and finish inside the
context as `ingestAfterLock`. -/
def ingestTx (base : String) (s0 : Store) (products : List ProductRun) :
    Store × Except (List (String × String)) Unit :=
  match txLock base s0 with
  | .error _ => (s0, .error [("transaction", "FileExistsError")])
  | .ok s1 => ingestAfterLock base (ingestLoop base s1 products [])

end Ingest

namespace Stac

/-- A spatial bounding box `[minX, minY, maxX, maxY]`; JSON numbers are
modeled as rationals. -/
structure BBoxData where
  minX : Rat
  minY : Rat
  maxX : Rat
  maxY : Rat
deriving DecidableEq, Repr

/-- A temporal interval `[start, end]`; either bound may be JSON `null`.
Datetimes are modeled as integers. -/
structure IntervalData where
  start : Option Int
  stop : Option Int
deriving DecidableEq, Repr

/-- `stac_pydantic` `Extent`: `spatial.bbox` and `temporal.interval`. -/
structure ExtentData where
  bbox : List BBoxData
  interval : List IntervalData
deriving DecidableEq, Repr

/-- The temporal properties of an Item. -/
structure ItemProps where
  datetime : Option Int
  startDatetime : Option Int
  endDatetime : Option Int
deriving DecidableEq, Repr

/-- An in-memory STAC object of `stac.py`.  Each variant carries its `id`,
its `target` attribute (the self href set from the validation context,
called `selfHref` here), its links and — for Items and Collections — its
assets.  A link is a `(rel, href, target)` triple whose target is the
resolved child object, `none` when unresolved; an asset is a
`(key, href, target)` triple whose target is an optional source path.
An Item's GeoJSON geometry is represented by its bounds (`geomBounds`),
which is all `get_extent` uses of it. -/
inductive StacObj where
  | item (id selfHref : String) (bbox geomBounds : Option BBoxData) (props : ItemProps)
      (links : List (String × String × Option StacObj))
      (assets : List (String × String × Option String))
  | collection (id selfHref : String) (extent : ExtentData)
      (links : List (String × String × Option StacObj))
      (assets : Option (List (String × String × Option String)))
  | catalog (id selfHref : String)
      (links : List (String × String × Option StacObj))
deriving Repr

/-- The `id` attribute. -/
def idOf : StacObj → String
  | .item id _ _ _ _ _ _ => id
  | .collection id _ _ _ _ => id
  | .catalog id _ _ => id

/-- The `target` attribute (the self href tracked in memory). -/
def selfHrefOf : StacObj → String
  | .item _ sh _ _ _ _ _ => sh
  | .collection _ sh _ _ _ => sh
  | .catalog _ sh _ => sh

/-- The `links` attribute. -/
def linksOf : StacObj → List (String × String × Option StacObj)
  | .item _ _ _ _ _ links _ => links
  | .collection _ _ _ links _ => links
  | .catalog _ _ links => links

/-- Replace the `links` attribute. -/
def withLinks : StacObj → List (String × String × Option StacObj) → StacObj
  | .item id sh bbox geo props _ assets, links => .item id sh bbox geo props links assets
  | .collection id sh ext _ assets, links => .collection id sh ext links assets
  | .catalog id sh _, links => .catalog id sh links

/-- Replace the `target` (self href) attribute. -/
def withSelfHref : StacObj → String → StacObj
  | .item id _ bbox geo props links assets, sh => .item id sh bbox geo props links assets
  | .collection id _ ext links assets, sh => .collection id sh ext links assets
  | .catalog id _ links, sh => .catalog id sh links

/-- Split a character list on a separator (the character-level analogue of
`str.split`, so concrete instances evaluate inside the kernel). -/
def splitChars (sep : Char) : List Char → List (List Char)
  | [] => [[]]
  | c :: cs =>
    if c = sep then [] :: splitChars sep cs
    else
      match splitChars sep cs with
      | [] => [[c]]
      | p :: ps => (c :: p) :: ps

/-- Join character lists with a separator. -/
def joinChars (sep : Char) : List (List Char) → List Char
  | [] => []
  | [p] => p
  | p :: ps => p ++ sep :: joinChars sep ps

/-- `os.path.dirname`: the path up to the last separator. -/
def dirname (p : String) : String :=
  match (splitChars '/' p.data).dropLast with
  | [] => ""
  | parts => ⟨joinChars '/' parts⟩

/-- `os.path.basename`: the last path component. -/
def basename (p : String) : String :=
  ⟨((splitChars '/' p.data).getLast?).getD p.data⟩

/-- Href join for the relative hrefs appearing in the embedded code
(`urljoin`, `os.path.join` on link hrefs): resolve `rel` against the
directory of `base`. -/
def joinRel (base rel : String) : String :=
  if dirname base = "" then rel else dirname base ++ "/" ++ rel

/-- `is_in_scope(href, scope)`: vacuously true without a scope, otherwise a
prefix test. -/
def isInScope (href : String) (scope : Option String) : Bool :=
  match scope with
  | none => true
  | some sc => strStartsWith href sc

/-- A stored document as the IO layer's `get` classifies it: not JSON at
all, JSON that fails the `StacObject` type-tag validation, JSON failing
the full per-type model validation, a valid STAC document (represented by
the in-memory object it parses into), or raw asset bytes. -/
inductive Doc where
  | malformed
  | notStac
  | invalid
  | valid (obj : StacObj)
  | blob (content : String)
deriving Repr

/-- The document store read and written by `load`/`save`/`delete`/`search`
(`store` parameter of `stac.py`): a finite map from hrefs to documents. -/
abbrev DocStore := List (String × Doc)

/-- Look an href up in a document store. -/
def docFind (store : DocStore) (href : String) : Option Doc :=
  match store.find? (fun kv => kv.1 = href) with
  | some kv => some kv.2
  | none => none

/-- Create or overwrite a document. -/
def docInsert (store : DocStore) (href : String) (d : Doc) : DocStore :=
  store.filter (fun kv => kv.1 ≠ href) ++ [(href, d)]

/-- Delete a document (`store.unset`). -/
def docErase (store : DocStore) (href : String) : DocStore :=
  store.filter (fun kv => kv.1 ≠ href)

/-- The validation part of `load(href, ...)`: fetch the document
(`FileNotFoundError` when absent, `JSONDecodeError` when not JSON) and
validate it (`StacObjectError` otherwise), yielding the in-memory
`stac_object` with absolutized hrefs and `target = href`. -/
def loadedObj (store : DocStore) (href : String) : Except PyErr StacObj :=
  match docFind store href with
  | none => .error .fileNotFound
  | some .malformed => .error .jsonDecodeError
  | some (.blob _) => .error .jsonDecodeError
  | some .notStac => .error .stacObjectError
  | some .invalid => .error .stacObjectError
  | some (.valid obj) => .ok obj

/-- `load(href, recursive=False, scope, store)`: builds and validates
`stac_object`, but the function body ends without a `return` statement, so
the call evaluates to `None`. -/
def loadE (store : DocStore) (href : String) : Except PyErr (Option StacObj) :=
  match loadedObj store href with
  | .error e => .error e
  | .ok _ => .ok none

/-- The `resolve_child_link` comprehension of recursive `load`, with the
recursive call at the next depth abstracted as `next`: child and item
links in scope are loaded (`FileNotFoundError` dropping the link, other
errors propagating); since `resolve_child_link` falls through after
`link.target = child`, every such link evaluates to `None` and is
dropped from `stac_object.links`. -/
def loadRecLinksWith (next : String → Except PyErr (Option StacObj)) (scope : Option String) :
    List (String × String × Option StacObj) → Except PyErr Unit
  | [] => .ok ()
  | (rel, href, _) :: rest =>
    if (rel == "child" || rel == "item") && isInScope href scope then
      match next href with
      | .error .fileNotFound => loadRecLinksWith next scope rest
      | .error e => .error e
      | .ok _ => loadRecLinksWith next scope rest
    else
      loadRecLinksWith next scope rest

/-- `load(href, recursive=True, scope, store)`: validate the object, then
resolve its in-scope `child`/`item` links recursively; like the
non-recursive form, the body falls through and the call evaluates to
`None`.  The recursion depth through stored hrefs is bounded by `fuel`
(`RecursionError` models Python's stack limit on cyclic href graphs). -/
def loadRec : Nat → DocStore → Option String → String → Except PyErr (Option StacObj)
  | 0, _, _, _ => .error .recursionError
  | fuel + 1, store, scope, href =>
    match loadedObj store href with
    | .error e => .error e
    | .ok obj =>
      match loadRecLinksWith (loadRec fuel store scope) scope (linksOf obj) with
      | .error e => .error e
      | .ok _ => .ok none

/-- The link loop of `search`, the recursive call at the next depth
abstracted as `next`: recurse into `item`/`child` links in scope,
returning the first non-`None` result. -/
def searchLinksWith (next : String → Except PyErr (Option StacObj)) (scope : Option String) :
    List (String × String × Option StacObj) → Except PyErr (Option StacObj)
  | [] => .ok none
  | (rel, href, _) :: rest =>
    if (rel == "item" || rel == "child") && isInScope href scope then
      match next href with
      | .ok none => searchLinksWith next scope rest
      | r => r
    else
      searchLinksWith next scope rest

/-- `search(root_href, id, scope, store)` (the root href is the last
argument here): load the root (`None` on `FileNotFoundError`), compare
`stac_object.id` — an attribute access on the value of `load`, which is
always `None`, hence `AttributeError` — and otherwise walk the in-scope
`child`/`item` links depth-first. -/
def searchF : Nat → DocStore → Option String → String → String → Except PyErr (Option StacObj)
  | 0, _, _, _, _ => .error .recursionError
  | fuel + 1, store, scope, id, rootHref =>
    match loadE store rootHref with
    | .error .fileNotFound => .ok none
    | .error e => .error e
    | .ok none => .error .attributeError
    | .ok (some stacObject) =>
      if idOf stacObject = id then .ok (some stacObject)
      else
        match stacObject with
        | .item _ _ _ _ _ _ _ => .ok none
        | _ => searchLinksWith (searchF fuel store scope id) scope (linksOf stacObject)

/-- The running state of the child loop of `compute_extent`: the
`is_empty` flag, the four bbox accumulators (initially
`[180, 90, -180, -90]`), the two datetime accumulators (initially
`None`), and the per-child `bboxes` / `datetimess` deques. -/
structure ExtAcc where
  isEmpty : Bool
  minX : Rat
  minY : Rat
  maxX : Rat
  maxY : Rat
  start : Option Int
  stop : Option Int
  bboxes : List BBoxData
  intervals : List IntervalData
deriving DecidableEq, Repr

/-- The initial accumulator of `compute_extent`. -/
def initAcc : ExtAcc :=
  { isEmpty := true, minX := 180, minY := 90, maxX := -180, maxY := -90,
    start := none, stop := none, bboxes := [], intervals := [] }

/-- `xs[0]`, raising `IndexError` on an empty list. -/
def index0 {α : Type} : List α → Except PyErr α
  | [] => .error .indexError
  | a :: _ => .ok a

/-- `min(acc, child) if acc is not None else child`: Python's `min`
raises `TypeError` when comparing an int with `None`. -/
def pyMinOpt (acc child : Option Int) : Except PyErr (Option Int) :=
  match acc with
  | none => .ok child
  | some a =>
    match child with
    | none => .error .typeError
    | some b => .ok (some (min a b))

/-- `max(acc, child) if acc is not None else child`, as `pyMinOpt`. -/
def pyMaxOpt (acc child : Option Int) : Except PyErr (Option Int) :=
  match acc with
  | none => .ok child
  | some a =>
    match child with
    | none => .error .typeError
    | some b => .ok (some (max a b))

/-- The Item branch of `get_extent`: the Item's own bbox, else
`tuple(*shapely.bounds(...))` — which unpacks four scalars into `tuple`
and raises `TypeError` — else `StacObjectError`; the datetimes from
`[start_datetime, end_datetime]`, else `[datetime, datetime]`, else
`StacObjectError`. -/
def itemExtent (bbox geomBounds : Option BBoxData) (props : ItemProps) : Except PyErr ExtentData :=
  match bbox with
  | none =>
    match geomBounds with
    | some _ => .error .typeError
    | none => .error .stacObjectError
  | some b =>
    match props.startDatetime, props.endDatetime with
    | some s, some e =>
      .ok { bbox := [b], interval := [{ start := some s, stop := some e }] }
    | _, _ =>
      match props.datetime with
      | some d => .ok { bbox := [b], interval := [{ start := some d, stop := some d }] }
      | none => .error .stacObjectError

/-- The overall extent built after the child loop: the accumulated union
prepended (`appendleft`) to the per-child entries. -/
def accExtent (acc : ExtAcc) : ExtentData :=
  { bbox := { minX := acc.minX, minY := acc.minY, maxX := acc.maxX, maxY := acc.maxY } :: acc.bboxes,
    interval := { start := acc.start, stop := acc.stop } :: acc.intervals }

/-- The child-extent evaluation of one link inside the loop of
`compute_extent`: an unresolved target is loaded first
(`link.target = load(...)`, whose value is `None` because `load` never
returns) and the extent of the resulting target is taken via
`get_extent` (`childEval`). -/
def childExtentOf (childEval : Option StacObj → Except PyErr (Option ExtentData))
    (store : DocStore) (href : String) : Option StacObj → Except PyErr (Option ExtentData)
  | none =>
    match loadE store href with
    | .error e => .error e
    | .ok t2 => childEval t2
  | some c => childEval (some c)

/-- The child loop of `compute_extent`, the child-extent evaluation at
the next depth abstracted as `childEval`: for each in-scope
`item`/`child` link, take the child extent, skip non-contributing
children, and fold mins and maxes into the accumulator while appending
the child's first bbox and first interval. -/
def extentChildrenWith (childEval : Option StacObj → Except PyErr (Option ExtentData))
    (store : DocStore) (scope : Option String) :
    List (String × String × Option StacObj) → ExtAcc → Except PyErr ExtAcc
  | [], acc => .ok acc
  | (rel, href, tgt) :: rest, acc =>
    if (rel == "item" || rel == "child") && isInScope href scope then
      match childExtentOf childEval store href tgt with
      | .error e => .error e
      | .ok none => extentChildrenWith childEval store scope rest acc
      | .ok (some ce) =>
        match index0 ce.bbox with
        | .error e => .error e
        | .ok cb =>
          match index0 ce.interval with
          | .error e => .error e
          | .ok ci =>
            match pyMinOpt acc.start ci.start with
            | .error e => .error e
            | .ok d0 =>
              match pyMaxOpt acc.stop ci.stop with
              | .error e => .error e
              | .ok d1 =>
                extentChildrenWith childEval store scope rest
                  { isEmpty := false,
                    minX := min acc.minX cb.minX, minY := min acc.minY cb.minY,
                    maxX := max acc.maxX cb.maxX, maxY := max acc.maxY cb.maxY,
                    start := d0, stop := d1,
                    bboxes := acc.bboxes ++ [cb], intervals := acc.intervals ++ [ci] }
    else
      extentChildrenWith childEval store scope rest acc

/-- The body of `compute_extent(stac_object, scope, store)`, child
extents evaluated through `childEval`: an Item defers to `get_extent`; a
Collection or Catalog folds the child loop over its links, then returns
`None` for an empty Catalog, raises `StacObjectError` for an empty
Collection, and otherwise prepends the union to the per-child extents. -/
def computeExtentBody (childEval : Option StacObj → Except PyErr (Option ExtentData))
    (store : DocStore) (scope : Option String) : StacObj → Except PyErr (Option ExtentData)
  | .item _ _ bbox geo props _ _ =>
    match itemExtent bbox geo props with
    | .error e => .error e
    | .ok e => .ok (some e)
  | .collection _ _ _ links _ =>
    match extentChildrenWith childEval store scope links initAcc with
    | .error e => .error e
    | .ok acc => if acc.isEmpty then .error .stacObjectError else .ok (some (accExtent acc))
  | .catalog _ _ links =>
    match extentChildrenWith childEval store scope links initAcc with
    | .error e => .error e
    | .ok acc => if acc.isEmpty then .ok none else .ok (some (accExtent acc))

/-- `get_extent(stac_object, scope, store)` applied to the value of a
link target, the nesting depth bounded by `fuel`: `None` falls through
the `isinstance` tests into `compute_extent(None, ...)`, which
dereferences `None.links` and raises `AttributeError`; an Item yields its
own extent, a Collection a copy of its stored extent, a Catalog its
recursively computed extent. -/
def getExtentF : Nat → DocStore → Option String → Option StacObj → Except PyErr (Option ExtentData)
  | 0, _, _, _ => .error .recursionError
  | _ + 1, _, _, none => .error .attributeError
  | _ + 1, _, _, some (.item _ _ bbox geo props _ _) =>
    match itemExtent bbox geo props with
    | .error e => .error e
    | .ok e => .ok (some e)
  | _ + 1, _, _, some (.collection _ _ ext _ _) => .ok (some ext)
  | fuel + 1, store, scope, some (.catalog id sh links) =>
    computeExtentBody (getExtentF fuel store scope) store scope (.catalog id sh links)

/-- `compute_extent(stac_object, scope, store)` with nesting depth
bounded by `fuel`: the body with child extents taken by `get_extent` one
depth down. -/
def computeExtentF (fuel : Nat) (store : DocStore) (scope : Option String)
    (obj : StacObj) : Except PyErr (Option ExtentData) :=
  computeExtentBody (getExtentF fuel store scope) store scope obj

/-- The `parent` link lookup loop (`for link in ...: if link.rel == "parent"`). -/
def findParentLink : List (String × String × Option StacObj) → Option (String × String × Option StacObj)
  | [] => none
  | (rel, href, t) :: rest => if rel == "parent" then some (rel, href, t) else findParentLink rest

/-- `load_parent(stac_object, store)`: return `None` when there is no
`parent` link; otherwise load the parent — whose value is `None`, so the
subsequent `for link in parent.links` dereference raises
`AttributeError`.  (The unreachable loaded-parent branch resolves the
reciprocal child link on the parent before returning it.) -/
def loadParent (store : DocStore) (obj : StacObj) : Except PyErr (Option StacObj) :=
  match findParentLink (linksOf obj) with
  | none => .ok none
  | some (_, phref, _) =>
    match loadE store phref with
    | .error e => .error e
    | .ok none => .error .attributeError
    | .ok (some parent) =>
      .ok (some (withLinks parent ((linksOf parent).map
        (fun l => if l.2.1 == selfHrefOf obj then (l.1, l.2.1, some obj) else l))))

/-- `model_dump()` omits the private `_target` attributes, so the stored
form of an object has all link and asset targets unresolved. -/
def stripTargets : StacObj → StacObj
  | .item id sh bbox geo props links assets =>
    .item id sh bbox geo props (links.map fun l => (l.1, l.2.1, none))
      (assets.map fun a => (a.1, a.2.1, none))
  | .collection id sh ext links assets =>
    .collection id sh ext (links.map fun l => (l.1, l.2.1, none))
      (assets.map fun as => as.map fun a => (a.1, a.2.1, none))
  | .catalog id sh links => .catalog id sh (links.map fun l => (l.1, l.2.1, none))

/-- The asset loop of `save`: each asset whose target is set has its
source bytes streamed to its href (`store.set_asset`). -/
def saveAssets : DocStore → List (String × String × Option String) → DocStore
  | store, [] => store
  | store, (_, href, some src) :: rest => saveAssets (docInsert store href (.blob src)) rest
  | store, (_, _, none) :: rest => saveAssets store rest

mutual

/-- `save(stac_object, store)`: write the dumped object at its self href,
then iterate `stac_object.assets.values()` — an attribute access that
raises `AttributeError` for a Catalog (no `assets` attribute) and for a
Collection whose `assets` is `None` — then save the resolved
`child`/`item` link targets. -/
def saveM : DocStore → StacObj → DocStore × Except PyErr Unit
  | store, .item id sh bbox geo props links assets =>
    let s1 := docInsert store sh (.valid (stripTargets (.item id sh bbox geo props links assets)))
    saveLinks (saveAssets s1 assets) links
  | store, .collection id sh ext links assets =>
    let s1 := docInsert store sh (.valid (stripTargets (.collection id sh ext links assets)))
    match assets with
    | none => (s1, .error .attributeError)
    | some as => saveLinks (saveAssets s1 as) links
  | store, .catalog id sh links =>
    let s1 := docInsert store sh (.valid (stripTargets (.catalog id sh links)))
    (s1, .error .attributeError)
termination_by _ obj => sizeOf obj

/-- The recursive link loop of `save`. -/
def saveLinks : DocStore → List (String × String × Option StacObj) → DocStore × Except PyErr Unit
  | store, [] => (store, .ok ())
  | store, (rel, _, some c) :: rest =>
    if rel == "child" || rel == "item" then
      match saveM store c with
      | (s2, .ok _) => saveLinks s2 rest
      | r => r
    else saveLinks store rest
  | store, (_, _, none) :: rest => saveLinks store rest
termination_by _ links => sizeOf links

end

/-- The asset loop of `delete`: unset each in-scope asset href. -/
def deleteAssets (scope : Option String) : DocStore → List (String × String × Option String) → DocStore
  | store, [] => store
  | store, (_, href, _) :: rest =>
    if isInScope href scope then deleteAssets scope (docErase store href) rest
    else deleteAssets scope store rest

mutual

/-- `delete(stac_object, scope, store)`: unset the object at its self
href, unset its in-scope assets — the same `assets` attribute access as
`save`, raising `AttributeError` for Catalogs and asset-less Collections
— then delete the resolved `child`/`item` link targets. -/
def deleteM (scope : Option String) : DocStore → StacObj → DocStore × Except PyErr Unit
  | store, .item id sh bbox geo props links assets =>
    let _ := (id, sh, bbox, geo, props)
    deleteLinks scope (deleteAssets scope (docErase store sh) assets) links
  | store, .collection _ sh _ links assets =>
    match assets with
    | none => (docErase store sh, .error .attributeError)
    | some as => deleteLinks scope (deleteAssets scope (docErase store sh) as) links
  | store, .catalog _ sh _ => (docErase store sh, .error .attributeError)
termination_by _ obj => sizeOf obj

/-- The recursive link loop of `delete`. -/
def deleteLinks (scope : Option String) : DocStore → List (String × String × Option StacObj) →
    DocStore × Except PyErr Unit
  | store, [] => (store, .ok ())
  | store, (rel, _, some c) :: rest =>
    if rel == "child" || rel == "item" then
      match deleteM scope store c with
      | (s2, .ok _) => deleteLinks scope s2 rest
      | r => r
    else deleteLinks scope store rest
  | store, (_, _, none) :: rest => deleteLinks scope store rest
termination_by _ links => sizeOf links

end

/-- `parent.extent = compute_extent(...)`: update a Collection's stored
extent; for an Item or Catalog the assignment does not affect the
serialized document and is modeled as the identity.  (A Collection never
receives `None`: `compute_extent` raises on empty Collections.) -/
def setExtent : StacObj → Option ExtentData → StacObj
  | .collection id sh _ links assets, some e => .collection id sh e links assets
  | obj, _ => obj

/-- The ancestor walk shared by the tails of `catalog` and `uncatalog`
(`while True: parent.extent = compute_extent(...); grand_parent =
load_parent(parent, ...)` followed by `save(parent, store)`): recompute
the extent, climb to the grandparent, save the topmost ancestor reached.
Any exception raised along the walk propagates out and no write at all is
performed, since `save` only runs after the walk completes. -/
def recomputeAndSave (store : DocStore) (scope : Option String) :
    Nat → StacObj → DocStore × Except PyErr Unit
  | 0, _ => (store, .error .recursionError)
  | fuel + 1, parent =>
    match computeExtentF (fuel + 1) store scope parent with
    | .error e => (store, .error e)
    | .ok ext =>
      let parent2 := setExtent parent ext
      match loadParent store parent2 with
      | .error e => (store, .error e)
      | .ok none => saveM store parent2
      | .ok (some gp) => recomputeAndSave store scope fuel gp

/-- `BaseStacTransaction.uncatalog(product_id)`: search the product —
which raises `AttributeError` whenever the root document is readable, and
returns `None` (hence `ObjectNotFoundError`) when the root href is absent
— then find its parent link (`RootUncatalogError` when there is none),
load the parent, detach the product, delete its subtree, and recompute
ancestor extents. -/
def uncatalogOp (fuel : Nat) (store : DocStore) (rootHref productId : String) :
    DocStore × Except PyErr Unit :=
  match searchF fuel store (some (dirname rootHref)) productId rootHref with
  | .error e => (store, .error e)
  | .ok none => (store, .error .objectNotFound)
  | .ok (some product) =>
    match findParentLink (linksOf product) with
    | none => (store, .error .rootUncatalogError)
    | some (_, phref, _) =>
      match loadE store phref with
      | .error e => (store, .error e)
      | .ok none => (store, .error .attributeError)
      | .ok (some parent) =>
        let parent2 := withLinks parent
          ((linksOf parent).filter (fun l => ¬(l.2.1 == selfHrefOf product)))
        match deleteM (some (dirname rootHref)) store product with
        | (s2, .error e) => (s2, .error e)
        | (s2, .ok _) => recomputeAndSave s2 (some (dirname rootHref)) fuel parent2

/-- `except ObjectNotFoundError` in `catalog`: matches
`ObjectNotFoundError` and its subclass `ParentNotFoundError`. -/
def catchObjectNotFound : PyErr → Bool
  | .objectNotFound => true
  | .parentNotFound => true
  | _ => false

/-- The canonical file name of an object, as `normalize_link` and the
`product_link_href` computation use it. -/
def fileNameFor : StacObj → String
  | .item id _ _ _ _ _ _ => id ++ ".json"
  | .collection _ _ _ _ _ => "collection.json"
  | .catalog _ _ _ => "catalog.json"

/-- `product_link_href` and `product_link_rel` of `catalog`
(`urljoin(product.id, ...)`). -/
def productLinkInfo : StacObj → String × String
  | .item id _ _ _ _ _ _ => (joinRel id (id ++ ".json"), "item")
  | .collection id _ _ _ _ => (joinRel id "collection.json", "child")
  | .catalog id _ _ => (joinRel id "catalog.json", "child")

/-- `parent_link_href` of `catalog` (`urljoin("..", ...)` on the parent's
kind). -/
def parentLinkHref : StacObj → String
  | .collection _ _ _ _ _ => joinRel ".." "collection.json"
  | _ => joinRel ".." "catalog.json"

/-- `normalize_asset`: re-home an in-scope asset (target set to the old
absolute href, href replaced by its basename). -/
def normalizeAsset (catalogScope : String) (a : String × String × Option String) :
    String × String × Option String :=
  if isInScope a.2.1 (some catalogScope) then (a.1, basename a.2.1, some a.2.1) else a

/-- The asset part of `normalize`: only Items and Collections with a
non-empty asset dict are rewritten. -/
def withAssetsNormalized (catalogScope : String) : StacObj → StacObj
  | .item id sh bbox geo props links assets =>
    .item id sh bbox geo props links (assets.map (normalizeAsset catalogScope))
  | .collection id sh ext links assets =>
    match assets with
    | some as =>
      if as.isEmpty then .collection id sh ext links (some as)
      else .collection id sh ext links (some (as.map (normalizeAsset catalogScope)))
    | none => .collection id sh ext links none
  | .catalog id sh links => .catalog id sh links

/-- `normalize_link`, the child normalization at the next depth
abstracted as `next`: `self`/`alternate` links are dropped; other
non-child links pass through; unresolved child links pass through;
resolved child links get a canonical href and a normalized child. -/
def normalizeLinkWith (next : StacObj → StacObj) (l : String × String × Option StacObj) :
    Option (String × String × Option StacObj) :=
  if l.1 == "self" || l.1 == "alternate" then none
  else if ¬(l.1 == "child" || l.1 == "item") then some l
  else
    match l.2.2 with
    | none => some (l.1, l.2.1, none)
    | some child =>
      some (l.1, idOf child ++ "/" ++ fileNameFor child, some (next child))

/-- `normalize(stac_object)` inside `catalog` (depth bounded by `fuel`,
which is ample for every finite tree; no theorem depends on this
function): drop `self`/`alternate` links, rewrite each resolved
`child`/`item` link href to the child's canonical relative location and
normalize the child, re-home in-scope assets, then re-target every
resolved link child against the owner's self href and normalize it
again. -/
def normalizeObj : Nat → String → StacObj → StacObj
  | 0, _, obj => obj
  | fuel + 1, catalogScope, obj =>
    let links1 := (linksOf obj).filterMap (normalizeLinkWith (normalizeObj fuel catalogScope))
    let obj1 := withAssetsNormalized catalogScope (withLinks obj links1)
    let links2 := (linksOf obj1).map (fun l =>
      match l.2.2 with
      | some c =>
        (l.1, l.2.1, some (normalizeObj fuel catalogScope
          (withSelfHref c (joinRel (selfHrefOf obj1) l.2.1))))
      | none => l)
    withLinks obj1 links2

/-- The linking tail of `catalog` (unreachable in executions: `catalog`
raises before it): append the product's `parent` link, link the product
under the parent unless a link with the product's canonical href already
exists (the append carries the product as resolved target — the source
mutates the aliased product object after appending, which this pure
translation performs up front), `normalize` the parent, then recompute
ancestor extents and save. -/
def catalogLink (fuel : Nat) (store : DocStore) (catalogScope : String)
    (parent product : StacObj) : DocStore × Except PyErr Unit :=
  let info := productLinkInfo product
  let product2 := withLinks product (linksOf product ++ [("parent", parentLinkHref parent, none)])
  let parent2 :=
    if (linksOf parent).any (fun l => l.2.1 == info.1) then parent
    else withLinks parent (linksOf parent ++ [(info.2, info.1, some product2)])
  let parent3 := normalizeObj fuel catalogScope parent2
  recomputeAndSave store (some catalogScope) fuel parent3

/-- The tail of `catalog` after the parent checks: `uncatalog` any
product with the same id, ignoring `ObjectNotFoundError`, then graft the
product (unreachable in executions). -/
def catalogFinish (fuel : Nat) (store : DocStore) (rootHref catalogScope : String)
    (parent product : StacObj) : DocStore × Except PyErr Unit :=
  match uncatalogOp fuel store rootHref (idOf product) with
  | (s2, .error e) =>
    if catchObjectNotFound e then catalogLink fuel s2 catalogScope parent product
    else (s2, .error e)
  | (s2, .ok _) => catalogLink fuel s2 catalogScope parent product

/-- `BaseStacTransaction.catalog(product_file, parent_id)`: load the
product recursively — its value is `None`, so the `product.links`
filtering raises `AttributeError` — then load (for `parent_id=None`) or
search the parent, raise `ParentNotFoundError` when it is `None`,
`ParentCatalogError` when it is an Item, and graft the product. -/
def catalogOp (fuel : Nat) (store : DocStore) (rootHref productFile : String)
    (parentId : Option String) : DocStore × Except PyErr Unit :=
  match loadRec fuel store (some (dirname productFile)) productFile with
  | .error e => (store, .error e)
  | .ok none => (store, .error .attributeError)
  | .ok (some product0) =>
    match (match parentId with
           | none => loadE store rootHref
           | some pid => searchF fuel store (some (dirname rootHref)) pid rootHref) with
    | .error e => (store, .error e)
    | .ok none => (store, .error .parentNotFound)
    | .ok (some parent) =>
      match parent with
      | .item _ _ _ _ _ _ _ => (store, .error .parentCatalogError)
      | _ =>
        catalogFinish fuel store rootHref (dirname rootHref) parent
          (withLinks product0 ((linksOf product0).filter
            (fun l => ¬(l.1 == "parent" || l.1 == "root" || l.1 == "self"))))

/-- A link that the child loop of `compute_extent` considers: an
`item`/`child` link whose href is in scope. -/
def relevantLink (scope : Option String) (l : String × String × Option StacObj) : Bool :=
  (l.1 == "item" || l.1 == "child") && isInScope l.2.1 scope

/-- Stated from the spec's description of extent computation (§4.2): the
contributing children of a link list are the in-scope `item`/`child`
links whose target's extent is not `None`; each contributes the first
bbox and the first interval of its extent, in link order.  Child extents
are read through `get_extent` (`getExtentPy`).  Used to state C5 against
`computeExtent`. -/
def specContrib (fuel : Nat) (store : DocStore) (scope : Option String) :
    List (String × String × Option StacObj) → Except PyErr (List (BBoxData × IntervalData))
  | [] => .ok []
  | l :: rest =>
    if relevantLink scope l then
      match getExtentF fuel store scope l.2.2 with
      | .error e => .error e
      | .ok none => specContrib fuel store scope rest
      | .ok (some ce) =>
        match ce.bbox, ce.interval with
        | cb :: _, ci :: _ =>
          match specContrib fuel store scope rest with
          | .error e => .error e
          | .ok ps => .ok ((cb, ci) :: ps)
        | _, _ => .error .indexError
    else specContrib fuel store scope rest

/-- One step of the child fold of `compute_extent`, on the contributed
(bbox, interval) pair: component-wise mins and maxes, Python `min`/`max`
on the optional datetimes, and the two appends. -/
def foldStep (acc : ExtAcc) (p : BBoxData × IntervalData) : Except PyErr ExtAcc :=
  match pyMinOpt acc.start p.2.start with
  | .error e => .error e
  | .ok d0 =>
    match pyMaxOpt acc.stop p.2.stop with
    | .error e => .error e
    | .ok d1 =>
      .ok { isEmpty := false,
            minX := min acc.minX p.1.minX, minY := min acc.minY p.1.minY,
            maxX := max acc.maxX p.1.maxX, maxY := max acc.maxY p.1.maxY,
            start := d0, stop := d1,
            bboxes := acc.bboxes ++ [p.1], intervals := acc.intervals ++ [p.2] }

/-- The child fold of `compute_extent` over the contributing pairs. -/
def foldExt (acc : ExtAcc) : List (BBoxData × IntervalData) → Except PyErr ExtAcc
  | [] => .ok acc
  | p :: ps =>
    match foldStep acc p with
    | .error e => .error e
    | .ok acc2 => foldExt acc2 ps

end Stac

/-- C1.  The claim states that for the filesystem backend `abort()`
restores the pre-transaction state bit-identically after any sequence of
staged operations.  The code violates it: `unset` renames `<file>.tmp`
onto `<file>.bck`, clobbering the backup of the original content, so
after `set` followed by `unset` on the same href, `abort` restores the
staged content `"v1"` in place of the original `"v0"`. -/
theorem C1_file_abort_not_bit_identical :
    FileBackend.runThenAbort "/r"
        [("/r/catalog.json", "c"), ("/r/a.json", "v0")]
        [.set "/r/a.json" "v1", .unset "/r/a.json"] =
      .ok [("/r/catalog.json", "c"), ("/r/a.json", "v1")] ∧
    ([("/r/catalog.json", "c"), ("/r/a.json", "v1")] :
        List (String × String)) ≠ [("/r/catalog.json", "c"), ("/r/a.json", "v0")] := by
  exact ⟨rfl, by decide⟩

/-- C9 counterexample.  The claim states that opening an existing
repository runs abort-style crash recovery whenever a stale `.lock` is
present.  On a state holding a stale `.lock`, a `.bck` and a `.tmp`,
`FileStacRepository.__init__` succeeds and returns the state untouched,
which differs from the cleaned-up state the claim requires. -/
theorem C9_open_performs_no_recovery :
    FileBackend.openRepo "/r"
        [("/r/catalog.json", "c"), ("/r/.lock", ""),
         ("/r/a.json.bck", "old"), ("/r/b.json.tmp", "new")] =
      .ok [("/r/catalog.json", "c"), ("/r/.lock", ""),
           ("/r/a.json.bck", "old"), ("/r/b.json.tmp", "new")] ∧
    FileBackend.lookup
        [("/r/catalog.json", "c"), ("/r/.lock", ""),
         ("/r/a.json.bck", "old"), ("/r/b.json.tmp", "new")] "/r/.lock" = some "" ∧
    FileBackend.specCrashRecovery "/r"
        [("/r/catalog.json", "c"), ("/r/.lock", ""),
         ("/r/a.json.bck", "old"), ("/r/b.json.tmp", "new")] ≠
      [("/r/catalog.json", "c"), ("/r/.lock", ""),
       ("/r/a.json.bck", "old"), ("/r/b.json.tmp", "new")] := by
  refine ⟨rfl, rfl, ?_⟩
  decide

/-- C9 amended.  On open, `FileStacRepository.__init__` only checks that
`<base>/catalog.json` exists (raising `RepositoryNotFoundError`
otherwise); it performs no crash recovery, returning the filesystem state
unchanged — stale `.lock`, `.bck` and `.tmp` files included. -/
theorem C9_open_binds_without_recovery (base : String) (s : FileBackend.Store)
    (hcat : (FileBackend.lookup s (base ++ "/catalog.json")).isSome) :
    FileBackend.openRepo base s = .ok s := by
  unfold FileBackend.openRepo
  rw [if_neg]
  simp only [Option.isNone_iff_eq_none]
  intro h
  rw [h] at hcat
  simp at hcat

/-- C9 witness: the amended theorem applied to a state with a stale lock
and journal files. -/
theorem C9_open_binds_witness :
    FileBackend.openRepo "/r"
        [("/r/catalog.json", "c"), ("/r/.lock", ""), ("/r/x.json.bck", "o")] =
      .ok [("/r/catalog.json", "c"), ("/r/.lock", ""), ("/r/x.json.bck", "o")] :=
  C9_open_binds_without_recovery "/r" _ (by decide)

/-- The integer loop of `get_commit` never matches a strictly positive
ref: the enumeration index is non-negative, so `-i == ref` is false
throughout and the loop falls through to `CommitNotFoundError`. -/
theorem aux_getCommitIntLoop_pos (i : Int) (hi : 0 < i) :
    ∀ (j : Nat) (cs : List History.Commit),
      History.getCommitIntLoop i j cs = .error .commitNotFound := by
  intro j cs
  induction cs generalizing j with
  | nil => rfl
  | cons c rest ih =>
    unfold History.getCommitIntLoop
    rw [if_neg (by omega)]
    exact ih (j + 1)

/-- C10.  For every commit history and every strictly positive integer
ref, `get_commit` exhausts the history and raises `CommitNotFoundError`:
it never returns a commit and never raises `RefTypeError`. -/
theorem C10_positive_int_ref_not_found (commits : List History.Commit) (i : Int)
    (hi : 0 < i) :
    History.getCommit commits (.int i) = .error .commitNotFound :=
  aux_getCommitIntLoop_pos i hi 0 commits

/-- C10 witness: a three-commit history with ref `1`. -/
theorem C10_positive_int_ref_witness :
    History.getCommit [⟨"a1b", 30⟩, ⟨"a1c", 20⟩, ⟨"a2", 10⟩] (.int 1) =
      .error .commitNotFound :=
  C10_positive_int_ref_not_found _ 1 (by norm_num)

/-- The integer loop of `get_commit`, started at index `j`, returns the
commit `k - j` positions further down when it exists and
`CommitNotFoundError` otherwise. -/
theorem aux_getCommitIntLoop_char (k : Nat) :
    ∀ (j : Nat) (cs : List History.Commit), j ≤ k →
      History.getCommitIntLoop (-(k : Int)) j cs =
        (match cs.get? (k - j) with
         | some c => .ok c
         | none => .error .commitNotFound) := by
  intro j cs
  induction cs generalizing j with
  | nil => intro _; rfl
  | cons c rest ih =>
    intro hjk
    unfold History.getCommitIntLoop
    by_cases hj : j = k
    · subst hj
      rw [if_pos (by omega)]
      simp
    · rw [if_neg (by omega)]
      rw [ih (j + 1) (by omega)]
      have hsub : k - j = (k - (j + 1)) + 1 := by omega
      rw [hsub]
      rfl

/-- The datetime loop of `get_commit` is `List.find?` on
`datetime ≤ t`. -/
theorem aux_getCommitDateLoop_char (t : Int) :
    ∀ cs : List History.Commit,
      History.getCommitDateLoop t cs =
        (match cs.find? (fun c => decide (c.datetime ≤ t)) with
         | some c => .ok c
         | none => .error .commitNotFound) := by
  intro cs
  induction cs with
  | nil => rfl
  | cons c rest ih =>
    unfold History.getCommitDateLoop
    by_cases h : c.datetime ≤ t
    · rw [if_pos h]
      rw [List.find?_cons_of_pos _ (by simpa using h)]
    · rw [if_neg h]
      rw [List.find?_cons_of_neg _ (by simpa using h)]
      exact ih

theorem aux_getCommitDateLoop_finds (t : Int) :
    ∀ (pre : List History.Commit) (c : History.Commit) (post : List History.Commit),
      c.datetime ≤ t → (∀ d ∈ pre, t < d.datetime) →
      History.getCommitDateLoop t (pre ++ c :: post) = .ok c := by
  intro pre
  induction pre with
  | nil =>
    intro c post hc _
    show History.getCommitDateLoop t (c :: post) = .ok c
    unfold History.getCommitDateLoop
    rw [if_pos hc]
  | cons a rest ih =>
    intro c post hc hpre
    show History.getCommitDateLoop t (a :: (rest ++ c :: post)) = .ok c
    unfold History.getCommitDateLoop
    rw [if_neg (not_le.mpr (hpre a (List.mem_cons_self a rest)))]
    exact ih c post hc (fun d hd => hpre d (List.mem_cons_of_mem a hd))

/-- C4.  `get_commit` resolves refs over a non-empty history (most recent
first) exactly as claimed: a string ref returns the unique commit whose
id extends it and fails on zero or several matches; an integer ref `-k`
returns the `k`-th commit before head (`0` the head), failing when the
history is shorter than `k + 1`; a datetime ref returns the most recent
commit at or before the ref (every strictly more recent commit being
strictly later than the ref), failing when no commit qualifies; any
other ref kind raises `RefTypeError`. -/
theorem C4_get_commit_resolution (commits : List History.Commit)
    (hne : commits ≠ []) :
    (∀ r c, c ∈ History.strCandidates commits r ↔ c ∈ commits ∧ strStartsWith c.id r) ∧
    (∀ r c, History.strCandidates commits r = [c] →
      History.getCommit commits (.str r) = .ok c) ∧
    (∀ r, History.strCandidates commits r = [] →
      History.getCommit commits (.str r) = .error .commitNotFound) ∧
    (∀ r c d rest, History.strCandidates commits r = c :: d :: rest →
      History.getCommit commits (.str r) = .error .commitNotFound) ∧
    (History.getCommit commits (.int 0) = .ok (commits.head hne)) ∧
    (∀ k : Nat, History.getCommit commits (.int (-(k : Int))) =
      (match commits.get? k with
       | some c => .ok c
       | none => .error .commitNotFound)) ∧
    (∀ t c, History.getCommit commits (.date t) = .ok c →
      ∃ pre post, commits = pre ++ c :: post ∧ c.datetime ≤ t ∧
        ∀ d ∈ pre, t < d.datetime) ∧
    (∀ t c pre post, commits = pre ++ c :: post → c.datetime ≤ t →
      (∀ d ∈ pre, t < d.datetime) →
      History.getCommit commits (.date t) = .ok c) ∧
    (∀ t, (∀ c ∈ commits, t < c.datetime) →
      History.getCommit commits (.date t) = .error .commitNotFound) ∧
    (History.getCommit commits .other = .error .refTypeError) := by
  refine ⟨?_, ?_, ?_, ?_, ?_, ?_, ?_, ?_, ?_, rfl⟩
  · intro r c
    simp [History.strCandidates, List.mem_filter]
  · intro r c hcand
    show History.getCommitStr commits r = .ok c
    unfold History.getCommitStr
    rw [hcand]
    rfl
  · intro r hcand
    show History.getCommitStr commits r = .error .commitNotFound
    unfold History.getCommitStr
    rw [hcand]
    rfl
  · intro r c d rest hcand
    show History.getCommitStr commits r = .error .commitNotFound
    unfold History.getCommitStr
    rw [hcand]
    simp
  · have h := aux_getCommitIntLoop_char 0 0 commits (le_refl 0)
    show History.getCommitIntLoop 0 0 commits = .ok (commits.head hne)
    have h0 : -((0 : Nat) : Int) = 0 := by norm_num
    rw [h0] at h
    rw [h]
    match commits, hne with
    | c :: rest, _ => rfl
  · intro k
    show History.getCommitIntLoop (-(k : Int)) 0 commits = _
    rw [aux_getCommitIntLoop_char k 0 commits (Nat.zero_le k)]
    rfl
  · intro t c h
    replace h : History.getCommitDateLoop t commits = .ok c := h
    rw [aux_getCommitDateLoop_char t commits] at h
    clear hne
    induction commits with
    | nil => simp at h
    | cons a rest ih =>
      by_cases ha : a.datetime ≤ t
      · rw [List.find?_cons_of_pos _ (by simpa using ha)] at h
        simp only [Except.ok.injEq] at h
        subst h
        exact ⟨[], rest, rfl, ha, by simp⟩
      · rw [List.find?_cons_of_neg _ (by simpa using ha)] at h
        obtain ⟨pre, post, heq, hle, hpre⟩ := ih h
        refine ⟨a :: pre, post, by rw [heq]; rfl, hle, ?_⟩
        intro d hd
        rcases List.mem_cons.mp hd with h1 | h2
        · subst h1; omega
        · exact hpre d h2
  · intro t c pre post heq hc hpre
    show History.getCommitDateLoop t commits = .ok c
    rw [heq]
    exact aux_getCommitDateLoop_finds t pre c post hc hpre
  · intro t hall
    show History.getCommitDateLoop t commits = .error .commitNotFound
    rw [aux_getCommitDateLoop_char t commits]
    have : commits.find? (fun c => decide (c.datetime ≤ t)) = none := by
      rw [List.find?_eq_none]
      intro c hc
      simpa using not_le.mpr (hall c hc)
    rw [this]

/-- C4 witness: the spec's disambiguation scenario — three commits with
ids `a1b`, `a1c`, `a2` — with an ambiguous string ref, a unique string
ref, the head ref `0`, the ref `-2`, a mid-history datetime ref (25)
resolving to the most recent commit at or before it, a too-early
datetime ref (5) failing, and a foreign ref. -/
theorem C4_get_commit_witness :
    History.getCommit [⟨"a1b", 30⟩, ⟨"a1c", 20⟩, ⟨"a2", 10⟩] (.str "a2") = .ok ⟨"a2", 10⟩ ∧
    History.getCommit [⟨"a1b", 30⟩, ⟨"a1c", 20⟩, ⟨"a2", 10⟩] (.str "a1") =
      .error .commitNotFound ∧
    History.getCommit [⟨"a1b", 30⟩, ⟨"a1c", 20⟩, ⟨"a2", 10⟩] (.int 0) = .ok ⟨"a1b", 30⟩ ∧
    History.getCommit [⟨"a1b", 30⟩, ⟨"a1c", 20⟩, ⟨"a2", 10⟩] (.int (-(2 : Nat) : Int)) =
      .ok ⟨"a2", 10⟩ ∧
    History.getCommit [⟨"a1b", 30⟩, ⟨"a1c", 20⟩, ⟨"a2", 10⟩] (.date 25) = .ok ⟨"a1c", 20⟩ ∧
    History.getCommit [⟨"a1b", 30⟩, ⟨"a1c", 20⟩, ⟨"a2", 10⟩] (.date 5) =
      .error .commitNotFound ∧
    History.getCommit [⟨"a1b", 30⟩, ⟨"a1c", 20⟩, ⟨"a2", 10⟩] .other =
      .error .refTypeError := by
  have h := C4_get_commit_resolution [⟨"a1b", 30⟩, ⟨"a1c", 20⟩, ⟨"a2", 10⟩] (by decide)
  obtain ⟨_, hstr1, _, hstramb, hint0, hintk, _, hdate, hdatenone, hother⟩ := h
  refine ⟨hstr1 "a2" ⟨"a2", 10⟩ (by decide), ?_, hint0, ?_, ?_, ?_, hother⟩
  · exact hstramb "a1" ⟨"a1b", 30⟩ ⟨"a1c", 20⟩ [] (by decide)
  · have := hintk 2
    simpa using this
  · exact hdate 25 ⟨"a1c", 20⟩ [⟨"a1b", 30⟩] [⟨"a2", 10⟩] rfl (by decide) (by decide)
  · exact hdatenone 5 (by decide)

/-- C3 counterexample.  The claim states that per-product ingest errors
are rethrown as a group only after the transaction context has exited, so
that commit is still attempted and the successfully cataloged products
are committed.  In the code `raise errors` sits inside the `with` block,
so the context aborts: on a batch with one cataloged and one failed
product the final state equals the pre-transaction state — the staged
product is gone (neither `/r/A/A.json` nor its `.tmp` exists) and no
commit happened. -/
theorem C3_error_group_aborts_transaction :
    Ingest.ingestTx "/r" [("/r/catalog.json", "c")]
        [.good "s1" "/r/A/A.json" "itemA", .bad "s2" "boom"] =
      ([("/r/catalog.json", "c")], .error [("s2", "boom")]) ∧
    FileBackend.lookup [("/r/catalog.json", "c")] "/r/A/A.json" = none ∧
    FileBackend.lookup [("/r/catalog.json", "c")] "/r/A/A.json.tmp" = none :=
  ⟨rfl, rfl, rfl⟩

/-- C3 amended.  The per-product errors are collected and raised as a
single error group while still inside the transaction context, so
whenever any product failed the context runs `abort`, the staged writes
are discarded and the error group is re-raised; commit is attempted only
when every product succeeded. -/
theorem C3_failed_batch_is_aborted (base : String) (s0 : FileBackend.Store)
    (products : List Ingest.ProductRun)
    (hlock : FileBackend.lookup s0 (FileBackend.lockKey base) = none)
    (herr : (Ingest.ingestLoop base (FileBackend.insert s0 (FileBackend.lockKey base) "")
        products []).2 ≠ []) :
    Ingest.ingestTx base s0 products =
      (match FileBackend.txAbort base
          (Ingest.ingestLoop base (FileBackend.insert s0 (FileBackend.lockKey base) "")
            products []).1 with
       | .ok s3 =>
         (s3, .error (Ingest.ingestLoop base
            (FileBackend.insert s0 (FileBackend.lockKey base) "") products []).2)
       | .error _ =>
         ((Ingest.ingestLoop base (FileBackend.insert s0 (FileBackend.lockKey base) "")
            products []).1,
          .error (Ingest.ingestLoop base
            (FileBackend.insert s0 (FileBackend.lockKey base) "") products []).2)) := by
  have hstep : Ingest.ingestTx base s0 products =
      Ingest.ingestAfterLock base
        (Ingest.ingestLoop base (FileBackend.insert s0 (FileBackend.lockKey base) "")
          products []) := by
    unfold Ingest.ingestTx FileBackend.txLock
    rw [hlock]
  rw [hstep]
  rcases hres : Ingest.ingestLoop base (FileBackend.insert s0 (FileBackend.lockKey base) "")
      products [] with ⟨s2, errs⟩
  rw [hres] at herr
  match errs, herr with
  | e :: es, _ => rfl

/-- C3 witness: the amended theorem applied to a batch whose single
product fails — the transaction aborts and the error group escapes. -/
theorem C3_failed_batch_witness :
    Ingest.ingestTx "/r" [("/r/catalog.json", "c")] [.bad "s2" "boom"] =
      ([("/r/catalog.json", "c")], .error [("s2", "boom")]) :=
  C3_failed_batch_is_aborted "/r" [("/r/catalog.json", "c")] [.bad "s2" "boom"] rfl
    (by decide)

/-- C2 counterexample.  The claim states that a `StacObjectError` raised
while recomputing an ancestor's extent is caught and logged and the
operation keeps its closer writes.  The ancestor walk of
`catalog`/`uncatalog` has no handler: on a childless Collection the error
propagates out of the walk and the store receives no write at all. -/
theorem C2_extent_error_propagates :
    Stac.recomputeAndSave [] (some "/r") 5
        (.collection "C" "/r/C/collection.json" ⟨[], []⟩ [] none) =
      ([], .error .stacObjectError) := rfl

/-- C2 amended.  A `StacObjectError` raised by the extent recomputation of
the first ancestor propagates out of the recompute-and-save walk of
`catalog`/`uncatalog`, and no ancestor write is performed: `save` only
runs after the whole walk completes, so the prepared extent updates are
discarded rather than retained. -/
theorem C2_extent_error_aborts_walk (store : Stac.DocStore) (scope : Option String)
    (fuel : Nat) (parent : Stac.StacObj)
    (h : Stac.computeExtentF (fuel + 1) store scope parent = .error .stacObjectError) :
    Stac.recomputeAndSave store scope (fuel + 1) parent =
      (store, .error .stacObjectError) := by
  unfold Stac.recomputeAndSave
  rw [h]

/-- C2 witness: the amended theorem applied to a childless Collection. -/
theorem C2_extent_error_witness :
    Stac.recomputeAndSave [] none 1
        (.collection "D" "/r/D/collection.json" ⟨[], []⟩ [] none) =
      ([], .error .stacObjectError) :=
  C2_extent_error_aborts_walk [] none 0 _ rfl

/-- `loadedObj` (the validation part of `load`) either yields the parsed
object or raises one of `FileNotFoundError`, `JSONDecodeError`,
`StacObjectError`. -/
theorem aux_loadedObj_shape (store : Stac.DocStore) (href : String) :
    (∃ o, Stac.loadedObj store href = .ok o) ∨
    Stac.loadedObj store href = .error .fileNotFound ∨
    Stac.loadedObj store href = .error .jsonDecodeError ∨
    Stac.loadedObj store href = .error .stacObjectError := by
  unfold Stac.loadedObj
  rcases hd : Stac.docFind store href with _ | d
  · simp
  · cases d <;> simp

/-- `load` without recursion never evaluates to an object: its value is
`None` on success and otherwise one of the three load errors. -/
theorem aux_loadE_shape (store : Stac.DocStore) (href : String) :
    Stac.loadE store href = .ok none ∨
    Stac.loadE store href = .error .fileNotFound ∨
    Stac.loadE store href = .error .jsonDecodeError ∨
    Stac.loadE store href = .error .stacObjectError := by
  unfold Stac.loadE
  rcases aux_loadedObj_shape store href with ⟨o, h⟩ | h | h | h <;> rw [h] <;> simp

/-- The link loop of recursive `load` either completes or propagates a
non-`FileNotFoundError` load error, provided the next-depth loader has
the shape of `load`. -/
theorem aux_loadRecLinksWith_shape (next : String → Except PyErr (Option Stac.StacObj))
    (hnext : ∀ href, next href = .ok none ∨
      ∃ e, next href = .error e ∧
        (e = .fileNotFound ∨ e = .jsonDecodeError ∨ e = .stacObjectError ∨
         e = .recursionError)) (scope : Option String) :
    ∀ links : List (String × String × Option Stac.StacObj),
      Stac.loadRecLinksWith next scope links = .ok () ∨
      ∃ e, Stac.loadRecLinksWith next scope links = .error e ∧
        (e = .jsonDecodeError ∨ e = .stacObjectError ∨ e = .recursionError) := by
  intro links
  induction links with
  | nil => left; rfl
  | cons l rest ih =>
    rcases l with ⟨rel, href, tgt⟩
    unfold Stac.loadRecLinksWith
    by_cases hc : ((rel == "child" || rel == "item") && Stac.isInScope href scope) = true
    · rw [if_pos hc]
      rcases hnext href with h | ⟨e, h, he⟩
      · rw [h]; exact ih
      · rw [h]
        rcases he with rfl | rfl | rfl | rfl
        · exact ih
        · exact Or.inr ⟨_, rfl, by simp⟩
        · exact Or.inr ⟨_, rfl, by simp⟩
        · exact Or.inr ⟨_, rfl, by simp⟩
    · rw [if_neg hc]
      exact ih

/-- Recursive `load` never evaluates to an object: the two missing
`return` statements make its value `None` on every successful path, and
otherwise it raises a load error or `RecursionError`. -/
theorem aux_loadRec_shape (fuel : Nat) :
    ∀ (store : Stac.DocStore) (scope : Option String) (href : String),
      Stac.loadRec fuel store scope href = .ok none ∨
      ∃ e, Stac.loadRec fuel store scope href = .error e ∧
        (e = .fileNotFound ∨ e = .jsonDecodeError ∨ e = .stacObjectError ∨
         e = .recursionError) := by
  induction fuel with
  | zero =>
    intro store scope href
    exact Or.inr ⟨.recursionError, rfl, by simp⟩
  | succ f ih =>
    intro store scope href
    rcases aux_loadedObj_shape store href with ⟨o, h⟩ | h | h | h
    · have hstep : Stac.loadRec (f + 1) store scope href =
          (match Stac.loadRecLinksWith (Stac.loadRec f store scope) scope (Stac.linksOf o) with
           | .error e => .error e
           | .ok _ => .ok none) := by
        unfold Stac.loadRec
        rw [h]
      rcases aux_loadRecLinksWith_shape (Stac.loadRec f store scope)
          (fun h2 => ih store scope h2) scope (Stac.linksOf o) with h2 | ⟨e, h2, he⟩
      · rw [hstep, h2]; left; rfl
      · rw [hstep, h2]
        rcases he with rfl | rfl | rfl
        · exact Or.inr ⟨_, rfl, by simp⟩
        · exact Or.inr ⟨_, rfl, by simp⟩
        · exact Or.inr ⟨_, rfl, by simp⟩
    · have hstep : Stac.loadRec (f + 1) store scope href = .error .fileNotFound := by
        unfold Stac.loadRec
        rw [h]
      rw [hstep]; exact Or.inr ⟨_, rfl, by simp⟩
    · have hstep : Stac.loadRec (f + 1) store scope href = .error .jsonDecodeError := by
        unfold Stac.loadRec
        rw [h]
      rw [hstep]; exact Or.inr ⟨_, rfl, by simp⟩
    · have hstep : Stac.loadRec (f + 1) store scope href = .error .stacObjectError := by
        unfold Stac.loadRec
        rw [h]
      rw [hstep]; exact Or.inr ⟨_, rfl, by simp⟩

/-- `search` either returns `None` or raises: the missing `return` in
`load` makes the `stac_object.id` access fail with `AttributeError`
whenever the root loads, so no object is ever returned. -/
theorem aux_searchF_shape (fuel : Nat) (store : Stac.DocStore) (scope : Option String)
    (id rootHref : String) :
    Stac.searchF fuel store scope id rootHref = .ok none ∨
    ∃ e, Stac.searchF fuel store scope id rootHref = .error e ∧
      (e = .recursionError ∨ e = .jsonDecodeError ∨ e = .stacObjectError ∨
       e = .attributeError) := by
  match fuel with
  | 0 => exact Or.inr ⟨.recursionError, rfl, by simp⟩
  | f + 1 =>
    unfold Stac.searchF
    rcases aux_loadE_shape store rootHref with h | h | h | h <;> rw [h]
    · exact Or.inr ⟨.attributeError, rfl, by simp⟩
    · left; rfl
    · exact Or.inr ⟨.jsonDecodeError, rfl, by simp⟩
    · exact Or.inr ⟨.stacObjectError, rfl, by simp⟩

/-- C6.  The claim states that `search` returns the first object of the
depth-first walk whose id matches, and `None` when the id is absent or
the root does not exist.  In the code `load` falls off the end of its
body and returns `None`, so `search` raises `AttributeError` at
`stac_object.id` whenever the root loads: it can only ever produce
`None` (root absent) or an exception, never an object — in particular,
on a store whose root catalog itself carries the requested id, it raises
`AttributeError` instead of returning the catalog. -/
theorem C6_search_never_returns_object :
    (∀ (fuel : Nat) (store : Stac.DocStore) (scope : Option String) (id rootHref : String),
      Stac.searchF fuel store scope id rootHref = .ok none ∨
      ∃ e, Stac.searchF fuel store scope id rootHref = .error e ∧
        (e = .recursionError ∨ e = .jsonDecodeError ∨ e = .stacObjectError ∨
         e = .attributeError)) ∧
    Stac.searchF 10 [("/r/catalog.json", .valid (.catalog "root" "/r/catalog.json" []))]
        (some "/r") "root" "/r/catalog.json" = .error .attributeError ∧
    Stac.searchF 10 [] (some "/r") "root" "/r/catalog.json" = .ok none :=
  ⟨fun fuel store scope id rootHref => aux_searchF_shape fuel store scope id rootHref,
   rfl, rfl⟩

/-- C7.  The claim states that `catalog` raises
`catalog-error:parent-not-found` for an absent parent id and
`catalog-error:parent-is-item` for an Item parent, with no side effects.
In the code the product load evaluates to `None` (missing `return` in
`load`), so `catalog` raises `AttributeError` at `product.links` before
the parent is ever examined: no call returns normally, neither parent
error is ever raised, and the store is left unchanged (the no-side-effect
half of the claim holds).  The last conjunct evaluates the failing input:
a valid product file and a missing parent id yield `AttributeError`, not
`ParentNotFoundError`. -/
theorem C7_catalog_crashes_before_parent_checks :
    (∀ (fuel : Nat) (store : Stac.DocStore) (rootHref productFile : String)
        (parentId : Option String),
      (Stac.catalogOp fuel store rootHref productFile parentId).1 = store ∧
      ∃ e, (Stac.catalogOp fuel store rootHref productFile parentId).2 = .error e ∧
        (e = .fileNotFound ∨ e = .jsonDecodeError ∨ e = .stacObjectError ∨
         e = .attributeError ∨ e = .recursionError)) ∧
    Stac.catalogOp 3
        [("/p/A.json", .valid (.item "A" "/p/A.json" (some ⟨0, 0, 1, 1⟩) none
            ⟨some 100, none, none⟩ [] [])),
         ("/r/catalog.json", .valid (.catalog "root" "/r/catalog.json" []))]
        "/r/catalog.json" "/p/A.json" (some "missing") =
      ([("/p/A.json", .valid (.item "A" "/p/A.json" (some ⟨0, 0, 1, 1⟩) none
            ⟨some 100, none, none⟩ [] [])),
        ("/r/catalog.json", .valid (.catalog "root" "/r/catalog.json" []))],
       .error .attributeError) := by
  refine ⟨?_, rfl⟩
  intro fuel store rootHref productFile parentId
  rcases aux_loadRec_shape fuel store (some (Stac.dirname productFile)) productFile
    with h | ⟨e, h, he⟩
  · have hstep : Stac.catalogOp fuel store rootHref productFile parentId =
        (store, .error .attributeError) := by
      unfold Stac.catalogOp
      rw [h]
    rw [hstep]
    exact ⟨rfl, .attributeError, rfl, by simp⟩
  · have hstep : Stac.catalogOp fuel store rootHref productFile parentId =
        (store, .error e) := by
      unfold Stac.catalogOp
      rw [h]
    rw [hstep]
    refine ⟨rfl, e, rfl, ?_⟩
    rcases he with rfl | rfl | rfl | rfl <;> simp

/-- C8.  The claim states that `uncatalog` raises `file-not-found` when
the id is absent and `uncatalog-error:root` for the root, with no side
effects.  In the code `search` never returns an object (missing `return`
in `load`): when the root document is readable `uncatalog` raises
`AttributeError`; `ObjectNotFoundError` only occurs when the root href
itself is unreadable; `RootUncatalogError` is unreachable; nothing is
ever deleted or written (the no-side-effect half of the claim holds).
The last conjunct evaluates the failing input: an existing root and an
absent product id yield `AttributeError`, not a file-not-found error. -/
theorem C8_uncatalog_crashes_in_search :
    (∀ (fuel : Nat) (store : Stac.DocStore) (rootHref productId : String),
      (Stac.uncatalogOp fuel store rootHref productId).1 = store ∧
      ∃ e, (Stac.uncatalogOp fuel store rootHref productId).2 = .error e ∧
        (e = .objectNotFound ∨ e = .recursionError ∨ e = .jsonDecodeError ∨
         e = .stacObjectError ∨ e = .attributeError)) ∧
    Stac.uncatalogOp 3 [("/r/catalog.json", .valid (.catalog "root" "/r/catalog.json" []))]
        "/r/catalog.json" "X" =
      ([("/r/catalog.json", .valid (.catalog "root" "/r/catalog.json" []))],
       .error .attributeError) := by
  refine ⟨?_, rfl⟩
  intro fuel store rootHref productId
  rcases aux_searchF_shape fuel store (some (Stac.dirname rootHref)) productId rootHref
    with h | ⟨e, h, he⟩
  · have hstep : Stac.uncatalogOp fuel store rootHref productId =
        (store, .error .objectNotFound) := by
      unfold Stac.uncatalogOp
      rw [h]
    rw [hstep]
    exact ⟨rfl, .objectNotFound, rfl, by simp⟩
  · have hstep : Stac.uncatalogOp fuel store rootHref productId =
        (store, .error e) := by
      unfold Stac.uncatalogOp
      rw [h]
    rw [hstep]
    refine ⟨rfl, e, rfl, ?_⟩
    rcases he with rfl | rfl | rfl | rfl <;> simp

/-- `get_extent` on an unresolved target (`None`) always raises. -/
theorem aux_getExtentF_none (fuel : Nat) (store : Stac.DocStore) (scope : Option String) :
    ∀ e, Stac.getExtentF fuel store scope none ≠ .ok e := by
  intro e
  cases fuel <;> simp [Stac.getExtentF]

/-- The child loop of `compute_extent` is the pure fold `foldExt` over the
contributing pairs collected by `specContrib`. -/
theorem aux_children_run (fuel : Nat) (store : Stac.DocStore) (scope : Option String) :
    ∀ (links : List (String × String × Option Stac.StacObj))
      (ps : List (Stac.BBoxData × Stac.IntervalData)),
      Stac.specContrib fuel store scope links = .ok ps →
      ∀ acc, Stac.extentChildrenWith (Stac.getExtentF fuel store scope) store scope links acc =
        Stac.foldExt acc ps := by
  intro links
  induction links with
  | nil =>
    intro ps hps acc
    unfold Stac.specContrib at hps
    simp only [Except.ok.injEq] at hps
    subst hps
    rfl
  | cons l rest ih =>
    intro ps hps acc
    rcases l with ⟨rel, href, tgt⟩
    unfold Stac.specContrib at hps
    unfold Stac.extentChildrenWith
    by_cases hrel : Stac.relevantLink scope (rel, href, tgt) = true
    · rw [if_pos hrel] at hps
      have hrel2 : ((rel == "item" || rel == "child") && Stac.isInScope href scope) = true := by
        simpa [Stac.relevantLink] using hrel
      rw [hrel2]
      simp only [if_true]
      rcases he : Stac.getExtentF fuel store scope tgt with e | ce?
      · rw [he] at hps
        simp at hps
      · rw [he] at hps
        rcases tgt with _ | c
        · exact absurd he (aux_getExtentF_none fuel store scope ce?)
        · rcases ce? with _ | ce
          · have hce : Stac.childExtentOf (Stac.getExtentF fuel store scope) store href (some c) =
                .ok none := he
            rw [hce]
            exact ih ps hps acc
          · have hce : Stac.childExtentOf (Stac.getExtentF fuel store scope) store href (some c) =
                .ok (some ce) := he
            rw [hce]
            rcases ce with ⟨cebb, ceiv⟩
            rcases cebb with _ | ⟨cb, cbs⟩
            · simp at hps
            · rcases ceiv with _ | ⟨ci, cis⟩
              · simp at hps
              · rcases hrest : Stac.specContrib fuel store scope rest with e2 | ps2
                · rw [hrest] at hps
                  simp at hps
                · rw [hrest] at hps
                  simp only [Except.ok.injEq] at hps
                  subst hps
                  show (match Stac.pyMinOpt acc.start ci.start with
                        | .error e => .error e
                        | .ok d0 =>
                          match Stac.pyMaxOpt acc.stop ci.stop with
                          | .error e => .error e
                          | .ok d1 =>
                            Stac.extentChildrenWith (Stac.getExtentF fuel store scope) store scope
                              rest
                              { isEmpty := false,
                                minX := min acc.minX cb.minX, minY := min acc.minY cb.minY,
                                maxX := max acc.maxX cb.maxX, maxY := max acc.maxY cb.maxY,
                                start := d0, stop := d1,
                                bboxes := acc.bboxes ++ [cb],
                                intervals := acc.intervals ++ [ci] }) =
                    Stac.foldExt acc ((cb, ci) :: ps2)
                  have hone : Stac.foldExt acc ((cb, ci) :: ps2) =
                      (match Stac.foldStep acc (cb, ci) with
                       | .error e => .error e
                       | .ok acc2 => Stac.foldExt acc2 ps2) := rfl
                  rw [hone]
                  rcases hmin : Stac.pyMinOpt acc.start ci.start with e3 | d0
                  · have hstepv : Stac.foldStep acc (cb, ci) = .error e3 := by
                      unfold Stac.foldStep
                      rw [hmin]
                    rw [hstepv]
                  · rcases hmax : Stac.pyMaxOpt acc.stop ci.stop with e4 | d1
                    · have hstepv : Stac.foldStep acc (cb, ci) = .error e4 := by
                        unfold Stac.foldStep
                        rw [hmin, hmax]
                      rw [hstepv]
                    · have hstepv : Stac.foldStep acc (cb, ci) =
                          .ok { isEmpty := false,
                                minX := min acc.minX cb.minX, minY := min acc.minY cb.minY,
                                maxX := max acc.maxX cb.maxX, maxY := max acc.maxY cb.maxY,
                                start := d0, stop := d1,
                                bboxes := acc.bboxes ++ [cb],
                                intervals := acc.intervals ++ [ci] } := by
                        unfold Stac.foldStep
                        rw [hmin, hmax]
                      rw [hstepv]
                      exact ih ps2 hrest _
    · rw [if_neg hrel] at hps
      have hrel2 : ((rel == "item" || rel == "child") && Stac.isInScope href scope) = false := by
        simpa [Stac.relevantLink] using hrel
      rw [hrel2]
      simp only [Bool.false_eq_true, if_false]
      exact ih ps hps acc

/-- `foldl min` is a lower bound of its initial value and of every
element. -/
theorem aux_foldl_min_le {α : Type} [LinearOrder α] :
    ∀ (xs : List α) (a : α), xs.foldl min a ≤ a ∧ ∀ x ∈ xs, xs.foldl min a ≤ x := by
  intro xs
  induction xs with
  | nil => intro a; exact ⟨le_refl a, by simp⟩
  | cons x xs ih =>
    intro a
    have h := ih (min a x)
    refine ⟨le_trans h.1 (min_le_left a x), ?_⟩
    intro y hy
    rcases List.mem_cons.mp hy with rfl | hy2
    · exact le_trans h.1 (min_le_right a y)
    · exact h.2 y hy2

/-- `foldl min` returns its initial value or one of the elements. -/
theorem aux_foldl_min_mem {α : Type} [LinearOrder α] :
    ∀ (xs : List α) (a : α), xs.foldl min a = a ∨ xs.foldl min a ∈ xs := by
  intro xs
  induction xs with
  | nil => intro a; left; rfl
  | cons x xs ih =>
    intro a
    rcases ih (min a x) with h | h
    · rcases min_choice a x with h2 | h2
      · left; rw [List.foldl_cons, h, h2]
      · right; rw [List.foldl_cons, h, h2]; exact List.mem_cons_self x xs
    · right; exact List.mem_cons_of_mem x h

/-- `foldl max` is an upper bound of its initial value and of every
element. -/
theorem aux_foldl_max_le {α : Type} [LinearOrder α] :
    ∀ (xs : List α) (a : α), a ≤ xs.foldl max a ∧ ∀ x ∈ xs, x ≤ xs.foldl max a := by
  intro xs
  induction xs with
  | nil => intro a; exact ⟨le_refl a, by simp⟩
  | cons x xs ih =>
    intro a
    have h := ih (max a x)
    refine ⟨le_trans (le_max_left a x) h.1, ?_⟩
    intro y hy
    rcases List.mem_cons.mp hy with rfl | hy2
    · exact le_trans (le_max_right a y) h.1
    · exact h.2 y hy2

/-- `foldl max` returns its initial value or one of the elements. -/
theorem aux_foldl_max_mem {α : Type} [LinearOrder α] :
    ∀ (xs : List α) (a : α), xs.foldl max a = a ∨ xs.foldl max a ∈ xs := by
  intro xs
  induction xs with
  | nil => intro a; left; rfl
  | cons x xs ih =>
    intro a
    rcases ih (max a x) with h | h
    · rcases max_choice a x with h2 | h2
      · left; rw [List.foldl_cons, h, h2]
      · right; rw [List.foldl_cons, h, h2]; exact List.mem_cons_self x xs
    · right; exact List.mem_cons_of_mem x h

/-- When every element is at most the sentinel and the list is non-empty,
`foldl min` from the sentinel is the attained minimum. -/
theorem aux_min_attained {α : Type} [LinearOrder α] (xs : List α) (a : α) (hne : xs ≠ [])
    (hub : ∀ x ∈ xs, x ≤ a) : xs.foldl min a ∈ xs ∧ ∀ x ∈ xs, xs.foldl min a ≤ x := by
  refine ⟨?_, (aux_foldl_min_le xs a).2⟩
  rcases aux_foldl_min_mem xs a with h | h
  · match xs, hne, hub, h with
    | x0 :: xs2, _, hub, h =>
      have h1 : (x0 :: xs2).foldl min a ≤ x0 := (aux_foldl_min_le (x0 :: xs2) a).2 x0 (by simp)
      have h3 : x0 ≤ (x0 :: xs2).foldl min a := by
        rw [h]; exact hub x0 (by simp)
      have h2 : (x0 :: xs2).foldl min a = x0 := le_antisymm h1 h3
      rw [h2]
      simp
  · exact h

/-- When every element is at least the sentinel and the list is non-empty,
`foldl max` from the sentinel is the attained maximum. -/
theorem aux_max_attained {α : Type} [LinearOrder α] (xs : List α) (a : α) (hne : xs ≠ [])
    (hlb : ∀ x ∈ xs, a ≤ x) : xs.foldl max a ∈ xs ∧ ∀ x ∈ xs, x ≤ xs.foldl max a := by
  refine ⟨?_, (aux_foldl_max_le xs a).2⟩
  rcases aux_foldl_max_mem xs a with h | h
  · match xs, hne, hlb, h with
    | x0 :: xs2, _, hlb, h =>
      have h1 : x0 ≤ (x0 :: xs2).foldl max a := (aux_foldl_max_le (x0 :: xs2) a).2 x0 (by simp)
      have h3 : (x0 :: xs2).foldl max a ≤ x0 := by
        rw [h]; exact hlb x0 (by simp)
      have h2 : (x0 :: xs2).foldl max a = x0 := le_antisymm h3 h1
      rw [h2]
      simp
  · exact h

/-- Running the child fold from an accumulator with definite datetime
bounds, over pairs whose interval bounds are all definite, never raises;
the result is characterized by plain folds and appends. -/
theorem aux_foldExt_run :
    ∀ (ps : List (Stac.BBoxData × Stac.IntervalData)) (acc : Stac.ExtAcc) (a b : Int),
      acc.start = some a → acc.stop = some b →
      (∀ p ∈ ps, p.2.start.isSome ∧ p.2.stop.isSome) →
      ∃ accN, Stac.foldExt acc ps = .ok accN ∧
        accN.isEmpty = (acc.isEmpty && ps.isEmpty) ∧
        accN.minX = (ps.map (fun p => p.1.minX)).foldl min acc.minX ∧
        accN.minY = (ps.map (fun p => p.1.minY)).foldl min acc.minY ∧
        accN.maxX = (ps.map (fun p => p.1.maxX)).foldl max acc.maxX ∧
        accN.maxY = (ps.map (fun p => p.1.maxY)).foldl max acc.maxY ∧
        accN.start = some ((ps.filterMap (fun p => p.2.start)).foldl min a) ∧
        accN.stop = some ((ps.filterMap (fun p => p.2.stop)).foldl max b) ∧
        accN.bboxes = acc.bboxes ++ ps.map (fun p => p.1) ∧
        accN.intervals = acc.intervals ++ ps.map (fun p => p.2) := by
  intro ps
  induction ps with
  | nil =>
    intro acc a b ha hb _
    exact ⟨acc, rfl, by simp, by simp, by simp, by simp, by simp, by simp [ha], by simp [hb],
      by simp, by simp⟩
  | cons p rest ih =>
    intro acc a b ha hb hsome
    obtain ⟨sp, hsp⟩ := Option.isSome_iff_exists.mp (hsome p (by simp)).1
    obtain ⟨ep, hep⟩ := Option.isSome_iff_exists.mp (hsome p (by simp)).2
    have hminv : Stac.pyMinOpt acc.start p.2.start = .ok (some (min a sp)) := by
      rw [ha, hsp]
      rfl
    have hmaxv : Stac.pyMaxOpt acc.stop p.2.stop = .ok (some (max b ep)) := by
      rw [hb, hep]
      rfl
    have hstepv : Stac.foldStep acc p =
        .ok { isEmpty := false,
              minX := min acc.minX p.1.minX, minY := min acc.minY p.1.minY,
              maxX := max acc.maxX p.1.maxX, maxY := max acc.maxY p.1.maxY,
              start := some (min a sp), stop := some (max b ep),
              bboxes := acc.bboxes ++ [p.1], intervals := acc.intervals ++ [p.2] } := by
      unfold Stac.foldStep
      rw [hminv, hmaxv]
    have hone : Stac.foldExt acc (p :: rest) =
        (match Stac.foldStep acc p with
         | .error e => .error e
         | .ok acc2 => Stac.foldExt acc2 rest) := rfl
    obtain ⟨accN, hfold, hempty, hx1, hx2, hx3, hx4, hstart, hstop, hbb, hiv⟩ :=
      ih { isEmpty := false,
           minX := min acc.minX p.1.minX, minY := min acc.minY p.1.minY,
           maxX := max acc.maxX p.1.maxX, maxY := max acc.maxY p.1.maxY,
           start := some (min a sp), stop := some (max b ep),
           bboxes := acc.bboxes ++ [p.1], intervals := acc.intervals ++ [p.2] }
        (min a sp) (max b ep) rfl rfl (fun q hq => hsome q (by simp [hq]))
    refine ⟨accN, ?_, ?_, ?_, ?_, ?_, ?_, ?_, ?_, ?_, ?_⟩
    · rw [hone, hstepv]
      exact hfold
    · rw [hempty]; simp
    · rw [hx1]; simp
    · rw [hx2]; simp
    · rw [hx3]; simp
    · rw [hx4]; simp
    · rw [hstart]; simp [List.filterMap_cons, hsp]
    · rw [hstop]; simp [List.filterMap_cons, hep]
    · rw [hbb]; simp
    · rw [hiv]; simp

/-- C5 counterexample.  The claim states that `compute_extent` unions the
extents of the in-scope children.  When a Collection's in-scope `item`
link carries an unresolved target — the stored form of every object,
since `model_dump` strips the private targets — the child loop first
loads it: `load` has no `return` statement and evaluates to `None`, so
`get_extent(None, ...)` dereferences `None.links` and `compute_extent`
raises `AttributeError` instead of returning the union, even though the
stored child is itself a valid contributing Item (second conjunct). -/
theorem C5_unresolved_child_not_unioned :
    Stac.computeExtentF 1
        [("/r/C/i1/i1.json", .valid (.item "i1" "/r/C/i1/i1.json"
            (some ⟨0, 0, 1, 1⟩) none ⟨some 100, none, none⟩ [] []))]
        (some "/r")
        (.collection "C" "/r/C/collection.json" ⟨[], []⟩
          [("item", "/r/C/i1/i1.json", none)] none) =
      .error .attributeError ∧
    Stac.getExtentF 1
        [("/r/C/i1/i1.json", .valid (.item "i1" "/r/C/i1/i1.json"
            (some ⟨0, 0, 1, 1⟩) none ⟨some 100, none, none⟩ [] []))]
        (some "/r")
        (some (.item "i1" "/r/C/i1/i1.json"
            (some ⟨0, 0, 1, 1⟩) none ⟨some 100, none, none⟩ [] [])) =
      .ok (some { bbox := [⟨0, 0, 1, 1⟩], interval := [⟨some 100, some 100⟩] }) :=
  ⟨rfl, rfl⟩

/-- C5 amended.  For every Collection or Catalog whose in-scope
`item`/`child` links contribute the pairs `ps` (the first bbox and first
interval of each contributing child's `get_extent`, in link order, as
`specContrib` collects them — which requires every in-scope link's
target to be resolved, `load` of an unresolved one yielding `None` and
hence `AttributeError`), with definite interval bounds and bbox
mins/maxes inside the coordinate ranges, `compute_extent` returns the
union extent followed by one entry per contributing child in link order:
the first bbox is the attained min of child minX/minY and max of child
maxX/maxY, and the first interval is the attained min of child starts
and max of child ends.  With no contributing children, a Catalog yields
`None` without raising and a Collection raises `StacObjectError`. -/
theorem C5_compute_extent_union (fuel : Nat) (store : Stac.DocStore) (scope : Option String)
    (links : List (String × String × Option Stac.StacObj))
    (idC shC idL shL : String) (extL : Stac.ExtentData)
    (assetsL : Option (List (String × String × Option String)))
    (ps : List (Stac.BBoxData × Stac.IntervalData))
    (hps : Stac.specContrib fuel store scope links = .ok ps)
    (hsome : ∀ p ∈ ps, p.2.start.isSome ∧ p.2.stop.isSome)
    (hbounds : ∀ p ∈ ps, p.1.minX ≤ 180 ∧ p.1.minY ≤ 90 ∧
      -180 ≤ p.1.maxX ∧ -90 ≤ p.1.maxY) :
    (ps = [] →
      Stac.computeExtentF fuel store scope (.catalog idC shC links) = .ok none ∧
      Stac.computeExtentF fuel store scope (.collection idL shL extL links assetsL) =
        .error .stacObjectError) ∧
    (ps ≠ [] →
      ∃ u sv ev,
        Stac.computeExtentF fuel store scope (.collection idL shL extL links assetsL) =
          .ok (some { bbox := u :: ps.map (fun p => p.1),
                      interval := ⟨some sv, some ev⟩ :: ps.map (fun p => p.2) }) ∧
        Stac.computeExtentF fuel store scope (.catalog idC shC links) =
          .ok (some { bbox := u :: ps.map (fun p => p.1),
                      interval := ⟨some sv, some ev⟩ :: ps.map (fun p => p.2) }) ∧
        (u.minX ∈ ps.map (fun p => p.1.minX) ∧ ∀ x ∈ ps.map (fun p => p.1.minX), u.minX ≤ x) ∧
        (u.minY ∈ ps.map (fun p => p.1.minY) ∧ ∀ x ∈ ps.map (fun p => p.1.minY), u.minY ≤ x) ∧
        (u.maxX ∈ ps.map (fun p => p.1.maxX) ∧ ∀ x ∈ ps.map (fun p => p.1.maxX), x ≤ u.maxX) ∧
        (u.maxY ∈ ps.map (fun p => p.1.maxY) ∧ ∀ x ∈ ps.map (fun p => p.1.maxY), x ≤ u.maxY) ∧
        (some sv ∈ ps.map (fun p => p.2.start) ∧
          ∀ y ∈ ps.filterMap (fun p => p.2.start), sv ≤ y) ∧
        (some ev ∈ ps.map (fun p => p.2.stop) ∧
          ∀ y ∈ ps.filterMap (fun p => p.2.stop), y ≤ ev)) := by
  have hrun := aux_children_run fuel store scope links ps hps Stac.initAcc
  constructor
  · rintro rfl
    constructor
    · have hcat : Stac.computeExtentF fuel store scope (.catalog idC shC links) =
          (match Stac.extentChildrenWith (Stac.getExtentF fuel store scope) store scope links
              Stac.initAcc with
           | .error e => .error e
           | .ok acc => if acc.isEmpty then .ok none
                        else .ok (some (Stac.accExtent acc))) := rfl
      rw [hcat, hrun]
      rfl
    · have hcol : Stac.computeExtentF fuel store scope
            (.collection idL shL extL links assetsL) =
          (match Stac.extentChildrenWith (Stac.getExtentF fuel store scope) store scope links
              Stac.initAcc with
           | .error e => .error e
           | .ok acc => if acc.isEmpty then .error .stacObjectError
                        else .ok (some (Stac.accExtent acc))) := rfl
      rw [hcol, hrun]
      rfl
  · intro hne
    obtain ⟨p0, rest, rfl⟩ := List.exists_cons_of_ne_nil hne
    obtain ⟨s0, hs0⟩ := Option.isSome_iff_exists.mp (hsome p0 (by simp)).1
    obtain ⟨e0, he0⟩ := Option.isSome_iff_exists.mp (hsome p0 (by simp)).2
    have hstep1 : Stac.foldExt Stac.initAcc (p0 :: rest) =
        Stac.foldExt
          { isEmpty := false,
            minX := min 180 p0.1.minX, minY := min 90 p0.1.minY,
            maxX := max (-180) p0.1.maxX, maxY := max (-90) p0.1.maxY,
            start := p0.2.start, stop := p0.2.stop,
            bboxes := [p0.1], intervals := [p0.2] } rest := rfl
    obtain ⟨accN, hfold, hempty, hx1, hx2, hx3, hx4, hstart, hstop, hbb, hiv⟩ :=
      aux_foldExt_run rest
        { isEmpty := false,
          minX := min 180 p0.1.minX, minY := min 90 p0.1.minY,
          maxX := max (-180) p0.1.maxX, maxY := max (-90) p0.1.maxY,
          start := p0.2.start, stop := p0.2.stop,
          bboxes := [p0.1], intervals := [p0.2] }
        s0 e0 hs0 he0 (fun q hq => hsome q (by simp [hq]))
    have hcomp : Stac.extentChildrenWith (Stac.getExtentF fuel store scope) store scope links
        Stac.initAcc = .ok accN := by
      rw [hrun, hstep1]
      exact hfold
    have hemptyF : accN.isEmpty = false := by
      rw [hempty]
      simp
    have haccE : Stac.accExtent accN =
        { bbox := ⟨accN.minX, accN.minY, accN.maxX, accN.maxY⟩ ::
            ((p0 :: rest).map (fun p => p.1)),
          interval :=
            ⟨some ((rest.filterMap (fun p => p.2.start)).foldl min s0),
             some ((rest.filterMap (fun p => p.2.stop)).foldl max e0)⟩ ::
            ((p0 :: rest).map (fun p => p.2)) } := by
      simp only [Stac.accExtent, hstart, hstop, hbb, hiv]
      simp
    refine ⟨⟨accN.minX, accN.minY, accN.maxX, accN.maxY⟩,
      (rest.filterMap (fun p => p.2.start)).foldl min s0,
      (rest.filterMap (fun p => p.2.stop)).foldl max e0, ?_, ?_, ?_, ?_, ?_, ?_, ?_, ?_⟩
    · have hcol : Stac.computeExtentF fuel store scope
            (.collection idL shL extL links assetsL) =
          (match Stac.extentChildrenWith (Stac.getExtentF fuel store scope) store scope links
              Stac.initAcc with
           | .error e => .error e
           | .ok acc => if acc.isEmpty then .error .stacObjectError
                        else .ok (some (Stac.accExtent acc))) := rfl
      rw [hcol, hcomp]
      simp [hemptyF, haccE]
    · have hcat : Stac.computeExtentF fuel store scope (.catalog idC shC links) =
          (match Stac.extentChildrenWith (Stac.getExtentF fuel store scope) store scope links
              Stac.initAcc with
           | .error e => .error e
           | .ok acc => if acc.isEmpty then .ok none
                        else .ok (some (Stac.accExtent acc))) := rfl
      rw [hcat, hcomp]
      simp [hemptyF, haccE]
    · have hx1f : accN.minX = ((p0 :: rest).map (fun p => p.1.minX)).foldl min 180 := by
        rw [hx1]
        rfl
      rw [hx1f]
      exact aux_min_attained _ 180 (by simp)
        (by intro x hx
            obtain ⟨p, hp, rfl⟩ := List.mem_map.mp hx
            exact (hbounds p hp).1)
    · have hx2f : accN.minY = ((p0 :: rest).map (fun p => p.1.minY)).foldl min 90 := by
        rw [hx2]
        rfl
      rw [hx2f]
      exact aux_min_attained _ 90 (by simp)
        (by intro x hx
            obtain ⟨p, hp, rfl⟩ := List.mem_map.mp hx
            exact (hbounds p hp).2.1)
    · have hx3f : accN.maxX = ((p0 :: rest).map (fun p => p.1.maxX)).foldl max (-180) := by
        rw [hx3]
        rfl
      rw [hx3f]
      exact aux_max_attained _ (-180) (by simp)
        (by intro x hx
            obtain ⟨p, hp, rfl⟩ := List.mem_map.mp hx
            exact (hbounds p hp).2.2.1)
    · have hx4f : accN.maxY = ((p0 :: rest).map (fun p => p.1.maxY)).foldl max (-90) := by
        rw [hx4]
        rfl
      rw [hx4f]
      exact aux_max_attained _ (-90) (by simp)
        (by intro x hx
            obtain ⟨p, hp, rfl⟩ := List.mem_map.mp hx
            exact (hbounds p hp).2.2.2)
    · constructor
      · rcases aux_foldl_min_mem (rest.filterMap (fun p => p.2.start)) s0 with hv | hv
        · rw [hv]
          exact List.mem_map.mpr ⟨p0, by simp, by rw [hs0]⟩
        · obtain ⟨q, hq, hqs⟩ := List.mem_filterMap.mp hv
          exact List.mem_map.mpr ⟨q, by simp [hq], by rw [hqs]⟩
      · intro y hy
        rw [List.filterMap_cons] at hy
        rw [hs0] at hy
        rcases List.mem_cons.mp hy with hy1 | hy2
        · rw [hy1]
          exact (aux_foldl_min_le _ s0).1
        · exact (aux_foldl_min_le _ s0).2 y hy2
    · constructor
      · rcases aux_foldl_max_mem (rest.filterMap (fun p => p.2.stop)) e0 with hv | hv
        · rw [hv]
          exact List.mem_map.mpr ⟨p0, by simp, by rw [he0]⟩
        · obtain ⟨q, hq, hqs⟩ := List.mem_filterMap.mp hv
          exact List.mem_map.mpr ⟨q, by simp [hq], by rw [hqs]⟩
      · intro y hy
        rw [List.filterMap_cons] at hy
        rw [he0] at hy
        rcases List.mem_cons.mp hy with hy1 | hy2
        · rw [hy1]
          exact (aux_foldl_max_le _ e0).1
        · exact (aux_foldl_max_le _ e0).2 y hy2

/-- C5 witness: the amended theorem applied to the empty cases (an empty
Catalog yields `None`, an empty Collection raises) and, through its
non-empty branch, to the spec's roll-up scenario — a Collection with two
resolved Items with bboxes `[0,0,1,1]`, `[2,2,3,3]` and datetimes `100`,
`200` yields the union `[0,0,3,3]` × `[100, 200]` followed by the two
per-child entries in link order. -/
theorem C5_compute_extent_witness :
    Stac.computeExtentF 1 [] none (.catalog "E" "/r/E/catalog.json" []) = .ok none ∧
    Stac.computeExtentF 1 [] none
        (.collection "C0" "/r/C0/collection.json" ⟨[], []⟩ [] none) =
      .error .stacObjectError ∧
    Stac.computeExtentF 1 [] none
        (.collection "C" "/r/C/collection.json" ⟨[], []⟩
          [("item", "/r/C/i1/i1.json", some (.item "i1" "/r/C/i1/i1.json"
              (some ⟨0, 0, 1, 1⟩) none ⟨some 100, none, none⟩ [] [])),
           ("item", "/r/C/i2/i2.json", some (.item "i2" "/r/C/i2/i2.json"
              (some ⟨2, 2, 3, 3⟩) none ⟨some 200, none, none⟩ [] []))] none) =
      .ok (some { bbox := [⟨0, 0, 3, 3⟩, ⟨0, 0, 1, 1⟩, ⟨2, 2, 3, 3⟩],
                  interval := [⟨some 100, some 200⟩, ⟨some 100, some 100⟩,
                               ⟨some 200, some 200⟩] }) := by
  have h := C5_compute_extent_union 1 [] none [] "E" "/r/E/catalog.json" "C0"
      "/r/C0/collection.json" ⟨[], []⟩ none [] rfl (by simp) (by simp)
  obtain ⟨hcat, hcol⟩ := h.1 rfl
  have h2 := C5_compute_extent_union 1 [] none
      [("item", "/r/C/i1/i1.json", some (.item "i1" "/r/C/i1/i1.json"
          (some ⟨0, 0, 1, 1⟩) none ⟨some 100, none, none⟩ [] [])),
       ("item", "/r/C/i2/i2.json", some (.item "i2" "/r/C/i2/i2.json"
          (some ⟨2, 2, 3, 3⟩) none ⟨some 200, none, none⟩ [] []))]
      "E" "/r/E/catalog.json" "C" "/r/C/collection.json" ⟨[], []⟩ none
      [(⟨0, 0, 1, 1⟩, ⟨some 100, some 100⟩), (⟨2, 2, 3, 3⟩, ⟨some 200, some 200⟩)]
      rfl (by decide) (by decide)
  obtain ⟨u, sv, ev, hcol2, _, hminx, hminy, hmaxx, hmaxy, hsv, hev⟩ := h2.2 (by simp)
  have humx : u.minX = 0 := by
    obtain ⟨hm, hb⟩ := hminx
    have h0 := hb 0 (by simp)
    simp at hm
    rcases hm with h | h
    · exact h
    · linarith
  have humy : u.minY = 0 := by
    obtain ⟨hm, hb⟩ := hminy
    have h0 := hb 0 (by simp)
    simp at hm
    rcases hm with h | h
    · exact h
    · linarith
  have huMx : u.maxX = 3 := by
    obtain ⟨hm, hb⟩ := hmaxx
    have h0 := hb 3 (by simp)
    simp at hm
    rcases hm with h | h
    · linarith
    · exact h
  have huMy : u.maxY = 3 := by
    obtain ⟨hm, hb⟩ := hmaxy
    have h0 := hb 3 (by simp)
    simp at hm
    rcases hm with h | h
    · linarith
    · exact h
  have hu : u = ⟨0, 0, 3, 3⟩ := by
    cases u
    simp_all
  have hsv100 : sv = 100 := by
    obtain ⟨hm, hb⟩ := hsv
    have h0 := hb 100 (by simp)
    simp at hm
    rcases hm with h | h
    · exact h
    · omega
  have hev200 : ev = 200 := by
    obtain ⟨hm, hb⟩ := hev
    have h0 := hb 200 (by simp)
    simp at hm
    rcases hm with h | h
    · omega
    · exact h
  refine ⟨hcat, hcol, ?_⟩
  rw [hu, hsv100, hev200] at hcol2
  exact hcol2
